import Mathlib

/-!
# The front end of my-ilmi-ai

A shallow embedding of the four scripts under `frontend/`, each with the page
state it reads and writes passed explicitly, one namespace per script:

* `QuranSearch`: `quran_search.js`, the dictionary loader and the meaning
  filter (`loadAllData`, `displayAyahs`), sequentially and with interleaved
  calls;
* `Script`: `script.js`, `handleAnalysis` and `convertMarkdownHighlights`;
* `Analysis`: `analysis.js`, the click handler, `renderResults` and the
  pagination of the manual results;
* `Keywords`: `keywords.js`, `loadKeywords`, `displayKeywords`,
  `getFilteredKeywords` and the formatting of a row.

Modelling conventions.

* A JavaScript string is a Lean `String`.
* `String.prototype.toLowerCase` is a built-in of the host language, not code
  of this repository: every definition that lowercases takes it as the
  argument `toLowerCase`, and the theorems hold for every such function.
  Concrete evaluations use `asciiLower`, which agrees with the built-in on
  ASCII text.
* `fetch` is the network: a function from the requested URL to what the
  request settles to.  Each call of `loadAllData` gets the network of its
  own moment, so two loads may see different answers.
* In the sequential definitions an `await` is modelled as running the awaited
  function to completion.  The section on interleaved calls splits the `async`
  functions at their `await`s.
* The field `requests` of a page state is a log of the URLs handed to `fetch`.
  The program does not keep it; it is there so that "no partition is fetched
  again" and "no request is issued" can be stated.
* The definitions come first, the theorems after them.
-/

namespace QuranSearch

/-! ## Data model -/

/-- One element of an entry's `occurrences` array. -/
structure OccurrenceRef where
  verse_reference : String
  arabic_text : String
  english_translation : String
  deriving DecidableEq, Repr

/-- One element of a partition file.  `meaning` is `none` when the property is
absent, `null` or `undefined`; the guard `item.meaning && ...` of `displayAyahs`
exists for that case. -/
structure DictionaryEntry where
  keyword_text : String
  meaning : Option String
  description : String
  total_occurrences : Nat
  occurrences : List OccurrenceRef
  deriving DecidableEq, Repr

/-- What `fetch(url)` resolves to: the `ok` flag of the response and the value
`response.json()` resolves to (`none`: the body does not parse, `json()`
rejects). -/
structure Response where
  ok : Bool
  json : Option (List DictionaryEntry)
  deriving DecidableEq, Repr

/-- The network: `none` is a rejected `fetch` promise (network error). -/
abbrev Fetch := String → Option Response

/-- The contents of `#results-section` (`innerHTML`), one constructor per
assignment in the source plus the markup the page starts with. -/
inductive View where
  | initial
  | spinner
  | loadError
  | results (matchingKeywords : List DictionaryEntry)
  | noResults
  deriving DecidableEq, Repr

/-- The state of the page that `quran_search.js` reads and writes. -/
structure Page where
  allKeywordsData : List DictionaryEntry
  resultsSection : View
  resultsDisplayed : Bool
  consoleErrors : List String
  requests : List String
  deriving DecidableEq, Repr

/-- The state when the script starts: `let allKeywordsData = [];`. -/
def Page.start : Page :=
  { allKeywordsData := [], resultsSection := View.initial, resultsDisplayed := false,
    consoleErrors := [], requests := [] }

/-! ## Strings -/

/-- ASCII lowercasing, standing in for `toLowerCase` on ASCII text. -/
def asciiLower (s : String) : String := ⟨s.data.map Char.toLower⟩

/-- Search of `needle` at every start position of the remaining text. -/
def includesFrom (needle : List Char) : List Char → Bool
  | [] => needle.isPrefixOf []
  | c :: rest => needle.isPrefixOf (c :: rest) || includesFrom needle rest

/-- The built-in `s.includes(searchString)`. -/
def includes (s searchString : String) : Bool :=
  includesFrom searchString.data s.data

/-- Truthiness of a string-or-missing value: missing and `""` are falsy. -/
def truthy : Option String → Bool
  | none => false
  | some s => !s.isEmpty

/-! ## `loadAllData` -/

/-- The constant `dictionaryFiles`. -/
def dictionaryFiles : List String :=
  [ "letter_$_ش.json", "letter_A_أ.json", "letter_b_ب.json", "letter_d_د.json",
    "letter_D_ض.json", "letter_f_ف.json", "letter_g_غ.json", "letter_H_ح.json",
    "letter_h_ه.json", "letter_j_ج.json", "letter_k_ك.json", "letter_l_ل.json",
    "letter_m_م.json", "letter_n_ن.json", "letter_q_ق.json", "letter_r_ر.json",
    "letter_s_س.json", "letter_S_ص.json", "letter_t_ت.json", "letter_T_ط.json",
    "letter_v_ث.json", "letter_w_و.json", "letter_x_خ.json", "letter_y_ي.json",
    "letter_z_ز.json", "letter_Z_ظ.json" ]

/-- The URL requested for a partition file. -/
def partitionUrl (file : String) : String :=
  "/Storage/Quran Dictionary With English Translation/" ++ file

/-- One element of `promises`: `fetch(url).then(response => ...)`, settled. -/
def fetchPartition (fetch : Fetch) (file : String) : Except String (List DictionaryEntry) :=
  match fetch (partitionUrl file) with
  | none => Except.error "network error"
  | some response =>
    if !response.ok then
      Except.error ("Failed to load " ++ file)
    else
      match response.json with
      | none => Except.error "invalid JSON"
      | some body => Except.ok body

/-- The built-in `Promise.all` on settled promises: the array of the values, or
the reason of a rejected one. -/
def promiseAll {α : Type} : List (Except String α) → Except String (List α)
  | [] => Except.ok []
  | Except.error reason :: _ => Except.error reason
  | Except.ok value :: rest =>
    match promiseAll rest with
    | Except.error reason => Except.error reason
    | Except.ok values => Except.ok (value :: values)

/-- The built-in `results.flat()` on an array of arrays of entries. -/
def flat {α : Type} (results : List (List α)) : List α :=
  results.foldl (fun acc part => acc ++ part) []

/-- The function `loadAllData`. -/
def loadAllData (fetch : Fetch) (page : Page) : Page :=
  let promises := dictionaryFiles.map (fun file => fetchPartition fetch file)
  let page := { page with requests := page.requests ++ dictionaryFiles.map partitionUrl }
  match promiseAll promises with
  | Except.ok results => { page with allKeywordsData := flat results }
  | Except.error error =>
    { page with
      consoleErrors := page.consoleErrors ++ ["Error loading dictionary files: " ++ error],
      resultsSection := View.loadError }

/-! ## `displayAyahs` -/

/-- The callback of the filter on line 50:
`item => item.meaning && item.meaning.toLowerCase().includes(meaning.toLowerCase())`. -/
def matchesMeaning (toLowerCase : String → String) (meaning : String)
    (item : DictionaryEntry) : Bool :=
  match item.meaning with
  | none => false
  | some m => truthy (some m) && includes (toLowerCase m) (toLowerCase meaning)

/-- The built-in `Array.prototype.filter`: visit the elements in index order and
append the accepted ones to the result. -/
def arrayFilter {α : Type} (callback : α → Bool) (xs : List α) : List α :=
  xs.foldl (fun kept x => if callback x then kept ++ [x] else kept) []

/-- The value of `matchingKeywords` in `displayAyahs`. -/
def matchingKeywords (toLowerCase : String → String) (meaning : String)
    (allKeywordsData : List DictionaryEntry) : List DictionaryEntry :=
  arrayFilter (matchesMeaning toLowerCase meaning) allKeywordsData

/-- The function `displayAyahs`. -/
def displayAyahs (toLowerCase : String → String) (fetch : Fetch) (meaning : String)
    (page : Page) : Page :=
  let page := { page with resultsDisplayed := true, resultsSection := View.spinner }
  let page := if page.allKeywordsData.length = 0 then loadAllData fetch page else page
  let matching := matchingKeywords toLowerCase meaning page.allKeywordsData
  if matching.length > 0 then
    { page with resultsSection := View.results matching }
  else
    { page with resultsSection := View.noResults }

/-- The last statement of the script: `loadAllData();` when the page loads. -/
def pageLoad (fetch : Fetch) : Page := loadAllData fetch Page.start

/-- A run of `displayAyahs` calls, each with the network of its moment. -/
def searches (toLowerCase : String → String) (calls : List (Fetch × String))
    (page : Page) : Page :=
  calls.foldl (fun p call => displayAyahs toLowerCase call.1 call.2 p) page

/-! ## Vocabulary of the specification -/

/-- Every partition request is answered with a success status and a body that
parses; `parts file` is the array held by `file`. -/
def AllSucceed (fetch : Fetch) (parts : String → List DictionaryEntry) : Prop :=
  ∀ file ∈ dictionaryFiles,
    fetch (partitionUrl file) = some { ok := true, json := some (parts file) }

instance instDecidableAllSucceed (fetch : Fetch) (parts : String → List DictionaryEntry) :
    Decidable (AllSucceed fetch parts) :=
  inferInstanceAs (Decidable (∀ file ∈ dictionaryFiles,
    fetch (partitionUrl file) = some { ok := true, json := some (parts file) }))

/-- The request for `file` fails: network error, non-success status, or a body
that does not parse. -/
def requestFails (fetch : Fetch) (file : String) : Bool :=
  match fetch (partitionUrl file) with
  | none => true
  | some response => !response.ok || response.json.isNone

/-- The selection of the specification: the entry has a `meaning` whose
lowercased form contains the lowercased query as a substring. -/
def MeaningContains (toLowerCase : String → String) (query : String)
    (entry : DictionaryEntry) : Prop :=
  ∃ m, entry.meaning = some m ∧ (toLowerCase query).data <:+: (toLowerCase m).data

instance instDecidableMeaningContains (toLowerCase : String → String) (query : String)
    (entry : DictionaryEntry) : Decidable (MeaningContains toLowerCase query entry) :=
  match h : entry.meaning with
  | none => isFalse (fun ⟨_, hm, _⟩ => by rw [h] at hm; exact Option.noConfusion hm)
  | some m =>
    decidable_of_iff ((toLowerCase query).data <:+: (toLowerCase m).data)
      ⟨fun hi => ⟨m, h, hi⟩, fun ⟨m', hm, hi⟩ => by
        rw [h] at hm
        cases hm
        exact hi⟩

/-- The entry has a `meaning` that is a non-empty string. -/
def HasMeaning (entry : DictionaryEntry) : Prop :=
  ∃ m, entry.meaning = some m ∧ m ≠ ""

instance instDecidableHasMeaning (entry : DictionaryEntry) : Decidable (HasMeaning entry) :=
  match h : entry.meaning with
  | none => isFalse (fun ⟨_, hm, _⟩ => by rw [h] at hm; exact Option.noConfusion hm)
  | some m =>
    decidable_of_iff (m ≠ "")
      ⟨fun hne => ⟨m, h, hne⟩, fun ⟨m', hm, hne⟩ => by
        rw [h] at hm
        cases hm
        exact hne⟩

/-- The results section painted for a list of matches: the keyword cards when
there is a match, "No results found for this meaning." otherwise. -/
def viewOf (matching : List DictionaryEntry) : View :=
  if matching.length > 0 then View.results matching else View.noResults

/-- A page whose results section shows the matches of `query` in its cache. -/
def showMatching (toLowerCase : String → String) (query : String) (page : Page) : Page :=
  { page with
    resultsSection := viewOf (matchingKeywords toLowerCase query page.allKeywordsData) }

/-! ## Test data -/

def righteousness : DictionaryEntry :=
  { keyword_text := "بر", meaning := some "righteousness", description := "",
    total_occurrences := 0, occurrences := [] }

def patience : DictionaryEntry :=
  { keyword_text := "صبر", meaning := some "patience", description := "",
    total_occurrences := 0, occurrences := [] }

/-- An entry whose gloss is the empty string. -/
def blank : DictionaryEntry :=
  { keyword_text := "ا", meaning := some "", description := "",
    total_occurrences := 0, occurrences := [] }

/-- A network on which every request succeeds with the same body. -/
def constNet (body : List DictionaryEntry) : Fetch :=
  fun _ => some { ok := true, json := some body }

/-- A network on which the request for `bad` gets a non-success status (a 404)
and every other request succeeds with `body`. -/
def notFoundNet (bad : String) (body : List DictionaryEntry) : Fetch :=
  fun url =>
    if url = partitionUrl bad then some { ok := false, json := none }
    else some { ok := true, json := some body }

/-- The network of end-to-end scenario 1: `letter_b` holds "righteousness",
`letter_S` holds "patience", the other files are empty arrays. -/
def scenarioParts (file : String) : List DictionaryEntry :=
  if file = "letter_b_ب.json" then [righteousness]
  else if file = "letter_S_ص.json" then [patience]
  else []

/-- A network that serves `parts file` for each file of `dictionaryFiles` and
rejects every other request. -/
def okNet (parts : String → List DictionaryEntry) : Fetch :=
  fun url =>
    match dictionaryFiles.find? (fun file => partitionUrl file = url) with
    | some file => some { ok := true, json := some (parts file) }
    | none => none

/-- The page after the load of scenario 1 succeeded at page load. -/
def loadedPage : Page := pageLoad (okNet scenarioParts)

/-- A network that is down: every request is rejected. -/
def downNet : Fetch := fun _ => none

/-! ## `trim` and the click handler of `quran_search.js` -/

/-- The code points `trim` strips: `WhiteSpace` (tab, vertical tab, form feed,
the zero-width no-break space and the space separators) and `LineTerminator`. -/
def isWhiteSpace (c : Char) : Bool :=
  let n := c.toNat
  n == 0x9 || n == 0xA || n == 0xB || n == 0xC || n == 0xD || n == 0x20 || n == 0xA0 ||
    n == 0x1680 || (0x2000 ≤ n && n ≤ 0x200A) || n == 0x2028 || n == 0x2029 ||
    n == 0x202F || n == 0x205F || n == 0x3000 || n == 0xFEFF

/-- The built-in `trim` on code points. -/
def trimChars (s : List Char) : List Char :=
  ((s.dropWhile isWhiteSpace).reverse.dropWhile isWhiteSpace).reverse

/-- The built-in `s.trim()`. -/
def trim (s : String) : String := ⟨trimChars s.data⟩

/-- The click handler of `#search-button` (lines 1 to 6); `keywordInput` is the
value of `#keyword-input` at the click. -/
def searchButtonClick (toLowerCase : String → String) (fetch : Fetch)
    (keywordInput : String) (page : Page) : Page :=
  let meaning := trim keywordInput
  if truthy (some meaning) then displayAyahs toLowerCase fetch meaning page else page

/-! ## Interleaved calls

The functions of `quran_search.js` are `async`: a call runs until its next
`await`, then other calls may run before it goes on.  `loadAllData` has one
`await` (for `Promise.all`), `displayAyahs` has one (for `loadAllData`, taken
only when the cache is empty).  A session is the page together with the calls
that are suspended; an event starts a call or lets a suspended call run to its
next `await` or to its end. -/

/-- The part of `loadAllData` before its `await`: the requests are issued. -/
def loadAllDataBegin (page : Page) : Page :=
  { page with requests := page.requests ++ dictionaryFiles.map partitionUrl }

/-- The part of `loadAllData` after its `await`, when the requests have
settled as `fetch` says. -/
def loadAllDataFinish (fetch : Fetch) (page : Page) : Page :=
  match promiseAll (dictionaryFiles.map (fun file => fetchPartition fetch file)) with
  | Except.ok results => { page with allKeywordsData := flat results }
  | Except.error error =>
    { page with
      consoleErrors := page.consoleErrors ++ ["Error loading dictionary files: " ++ error],
      resultsSection := View.loadError }

/-- The part of `displayAyahs` after line 48: filter the cache and paint. -/
def displayAyahsFinish (toLowerCase : String → String) (meaning : String) (page : Page) :
    Page :=
  let matching := matchingKeywords toLowerCase meaning page.allKeywordsData
  if matching.length > 0 then
    { page with resultsSection := View.results matching }
  else
    { page with resultsSection := View.noResults }

/-- A suspended call.  `awaitingAll`: a `loadAllData` at `await Promise.all`,
whose requests will settle as `fetch` says, called by `displayAyahs(meaning)`
or, for `none`, by the last line of the script.  `awaitingLoad`: a
`displayAyahs(meaning)` whose `loadAllData` has returned. -/
inductive Pending where
  | awaitingAll (fetch : Fetch) (caller : Option String)
  | awaitingLoad (meaning : String)

/-- The page and the suspended calls. -/
structure Session where
  page : Page
  pending : List Pending

/-- The session when the script starts. -/
def Session.start : Session := { page := Page.start, pending := [] }

/-- What can happen next: the script's own `loadAllData()`, a call of
`displayAyahs`, or the suspended call number `k` going on. -/
inductive Event where
  | preload (fetch : Fetch)
  | search (fetch : Fetch) (meaning : String)
  | resume (k : Nat)

/-- One event. -/
def step (toLowerCase : String → String) (event : Event) (session : Session) : Session :=
  match event with
  | Event.preload fetch =>
    { page := loadAllDataBegin session.page,
      pending := session.pending ++ [Pending.awaitingAll fetch none] }
  | Event.search fetch meaning =>
    let page := { session.page with resultsDisplayed := true, resultsSection := View.spinner }
    if page.allKeywordsData.length = 0 then
      { page := loadAllDataBegin page,
        pending := session.pending ++ [Pending.awaitingAll fetch (some meaning)] }
    else
      { page := displayAyahsFinish toLowerCase meaning page, pending := session.pending }
  | Event.resume k =>
    match session.pending.get? k with
    | none => session
    | some (Pending.awaitingAll fetch none) =>
      { page := loadAllDataFinish fetch session.page, pending := session.pending.eraseIdx k }
    | some (Pending.awaitingAll fetch (some meaning)) =>
      { page := loadAllDataFinish fetch session.page,
        pending := session.pending.set k (Pending.awaitingLoad meaning) }
    | some (Pending.awaitingLoad meaning) =>
      { page := displayAyahsFinish toLowerCase meaning session.page,
        pending := session.pending.eraseIdx k }

/-- A run of events. -/
def run (toLowerCase : String → String) (events : List Event) (session : Session) : Session :=
  events.foldl (fun s event => step toLowerCase event s) session

/-- The network of an event that starts a call. -/
def Event.fetch? : Event → Option Fetch
  | Event.preload fetch => some fetch
  | Event.search fetch _ => some fetch
  | Event.resume _ => none

/-- The suspended call is a `loadAllData` whose requests succeed with the
partitions `parts`. -/
def Pending.Succeeds (parts : String → List DictionaryEntry) : Pending → Prop
  | Pending.awaitingAll fetch _ => AllSucceed fetch parts
  | Pending.awaitingLoad _ => True

/-- The suspended call is a `loadAllData` that has not assigned the cache yet. -/
def Pending.isLoading : Pending → Bool
  | Pending.awaitingAll _ _ => true
  | Pending.awaitingLoad _ => false

/-- Between events: every suspended load will succeed with `parts`, and the
cache is the concatenation of `parts`, or it is empty while no load was ever
started or a load has yet to assign it. -/
def Session.Consistent (parts : String → List DictionaryEntry) (session : Session) : Prop :=
  (∀ call ∈ session.pending, call.Succeeds parts) ∧
    (session.page.allKeywordsData = (dictionaryFiles.map parts).flatten ∨
      (session.page.allKeywordsData = [] ∧
        (session.page.requests = [] ∨ ∃ call ∈ session.pending, call.isLoading = true)))

/-- A load was started at some point, or the cache holds entries. -/
def Session.Started (session : Session) : Prop :=
  session.page.requests ≠ [] ∨ session.page.allKeywordsData ≠ []

end QuranSearch

/-! # The analysis page (`frontend/script.js`)

`handleAnalysis` with the page state it writes.  The six `display...`
functions only build markup: the view records which result type was rendered
from which data, and `display` says whether building it throws.  The
analytics hook (`window.analyticsUtils`) lives outside this repository and is
left out. -/

namespace Script

open QuranSearch (trim truthy)

/-- The constant `buttons`: button id and endpoint. -/
def buttons : List (String × String) :=
  [ ("complete-analysis", "get_hadith_complete_info"),
    ("find-ayahs", "get_hadith_related_ayahs"),
    ("extract-narrators", "get_hadith_narators"),
    ("extract-content", "get_hadith_content"),
    ("analyze-keywords", "keyword_search"),
    ("highlight-keywords", "highlight_keywords") ]

/-- The JSON document of a response: the `detail` property read on errors and
the rest of the document, kept as text. -/
structure Payload where
  detail : Option String
  document : String
  deriving DecidableEq, Repr

/-- What `fetch` resolves to: `json` is what `response.json()` settles to, the
error being the message of the rejection. -/
structure Response where
  ok : Bool
  status : Nat
  statusText : String
  json : Except String Payload

/-- The network for a POST: URL and request body to the response, or the
message of the rejection of `fetch`. -/
abbrev Post := String → String → Except String Response

/-- The contents of `#results-section`. -/
inductive View where
  | initial
  | loading
  | error (message : String)
  | results (resultType : String) (data : Payload)
  | unknownResultType
  deriving DecidableEq, Repr

/-- The state of the page that `handleAnalysis` reads and writes; `requests`
logs the URL and the body of every request issued. -/
structure Page where
  resultsSection : View
  resultsDisplayed : Bool
  loadingButtons : List String
  requests : List (String × String)
  deriving DecidableEq, Repr

/-- The page before any click. -/
def Page.start : Page :=
  { resultsSection := View.initial, resultsDisplayed := false, loadingButtons := [],
    requests := [] }

/-- The function `toggleButtonLoading`. -/
def toggleButtonLoading (buttonId : String) (isLoading : Bool) (page : Page) : Page :=
  if isLoading then
    { page with
      loadingButtons :=
        if buttonId ∈ page.loadingButtons then page.loadingButtons
        else page.loadingButtons ++ [buttonId] }
  else
    { page with loadingButtons := page.loadingButtons.filter (fun b => b != buttonId) }

/-- The function `showLoading`. -/
def showLoading (page : Page) : Page :=
  { page with resultsSection := View.loading, resultsDisplayed := true }

/-- The function `showError`. -/
def showError (message : String) (page : Page) : Page :=
  { page with resultsSection := View.error message, resultsDisplayed := true }

/-- The result types of the `switch` in `renderResults`. -/
def resultTypes : List String :=
  [ "complete_analysis", "find_ayahs", "extract_narrators", "extract_content",
    "analyze_keywords", "highlight_keywords" ]

/-- The function `renderResults`; `display resultType data` is the message of
the error the `display...` function of that case throws, if it throws. -/
def renderResults (display : String → Payload → Option String) (data : Payload)
    (resultType : String) (page : Page) : Except String Page :=
  if resultType ∈ resultTypes then
    match display resultType data with
    | some message => Except.error message
    | none =>
      Except.ok { page with
        resultsSection := View.results resultType data, resultsDisplayed := true }
  else
    Except.ok { page with resultsSection := View.unknownResultType, resultsDisplayed := true }

/-- Line terminators: the characters `.` does not match. -/
def isLineTerminator (c : Char) : Bool :=
  c == '\n' || c == '\r' || c.toNat == 0x2028 || c.toNat == 0x2029

/-- A match of `(.*?)\*\*` at the start of the text: the shortest run of
characters other than line terminators that is followed by `**`.  The value is
the run and the text after the closing `**`. -/
def matchLazyGroup : List Char → Option (List Char × List Char)
  | [] => none
  | c :: rest =>
    if c = '*' && rest.head? = some '*' then some ([], rest.tail)
    else if isLineTerminator c then none
    else
      match matchLazyGroup rest with
      | none => none
      | some (group, after) => some (c :: group, after)

/-- A match of `\*\*(.*?)\*\*` at the start of the text: the captured group
and the text after the match. -/
def matchHighlight : List Char → Option (List Char × List Char)
  | '*' :: '*' :: rest => matchLazyGroup rest
  | _ => none

/-- The global replacement of `convertMarkdownHighlights`, scanning from the
left: a match is replaced and the scan goes on after it, a position without a
match keeps its character.  Every step consumes a character, so a fuel of the
length of the text is enough (`replaceHighlights_fuel`). -/
def replaceHighlights : Nat → List Char → List Char
  | 0, text => text
  | _ + 1, [] => []
  | fuel + 1, c :: rest =>
    match matchHighlight (c :: rest) with
    | some (group, after) =>
      "<span class=\"highlighted-word\">".data ++ group ++ "</span>".data
        ++ replaceHighlights fuel after
    | none => c :: replaceHighlights fuel rest

/-- The function `convertMarkdownHighlights`; the argument is `none` when it is
`undefined` or `null`. -/
def convertMarkdownHighlights (text : Option String) : Option String :=
  match text with
  | none => none
  | some t =>
    if !truthy (some t) then some t
    else some ⟨replaceHighlights t.data.length t.data⟩

/-- The `try` block of `handleAnalysis`: the page it leaves, or the message of
the error it throws. -/
def requestAnalysis (post : Post) (display : String → Payload → Option String)
    (buttonId query : String) (page : Page) : Page × Option String :=
  let endpoint := (buttons.lookup buttonId).getD "undefined"
  let url := "/api/quran/" ++ endpoint
  let page := { page with requests := page.requests ++ [(url, query)] }
  match post url query with
  | Except.error message => (page, some message)
  | Except.ok response =>
    if !response.ok then
      let detail :=
        match response.json with
        | Except.error _ => some "Unknown server error"
        | Except.ok errorData => errorData.detail
      let shown := if truthy detail then detail.getD "" else response.statusText
      (page, some ("Server error: " ++ toString response.status ++ " - " ++ shown))
    else
      match response.json with
      | Except.error message => (page, some message)
      | Except.ok data =>
        let resultType := String.mk (buttonId.data.map (fun c => if c = '-' then '_' else c))
        match renderResults display data resultType page with
        | Except.error message => (page, some message)
        | Except.ok rendered => (rendered, none)

/-- The function `handleAnalysis`; `hadithInput` is the value of
`#hadith-input` at the click. -/
def handleAnalysis (post : Post) (display : String → Payload → Option String)
    (buttonId hadithInput : String) (page : Page) : Page :=
  let query := trim hadithInput
  if !truthy (some query) then
    showError "Please enter a Hadith to analyze." page
  else
    let page := showLoading (toggleButtonLoading buttonId true page)
    let page :=
      match requestAnalysis post display buttonId query page with
      | (page, none) => page
      | (page, some message) => showError ("Request Failed: " ++ message) page
    toggleButtonLoading buttonId false page

end Script

/-! # The complete-analysis page (`frontend/analysis.js`)

The click handler of `#analyze-button`, `renderResults` and the pagination of
the manual results.  The markup of a block is not modelled: the view records
the data a block is built from.  The manual-results block is the list of its
items in document order, which is what `getElementById` and
`nextElementSibling` walk.  A `none` result stands for an uncaught
`TypeError`. -/

namespace Analysis

open QuranSearch (DictionaryEntry trim truthy isWhiteSpace)

/-- One element of an `ai_search_results` array; `score` is kept as text. -/
structure AiResult where
  arabic_diacritics : String
  english_translation : String
  surah_name_english : String
  aya_number : Nat
  score : String
  deriving DecidableEq, Repr

/-- The JSON document of a successful analysis.  The two result objects are
lists of property name and value in property enumeration order. -/
structure AnalysisData where
  hadith_content : String
  narrators : List String
  existing_narrators : List String
  missing_narrators : List String
  found_keywords : List String
  manual_search_results : List (String × List DictionaryEntry)
  ai_search_results : List (String × List AiResult)
  deriving DecidableEq, Repr

/-- What `fetch` resolves to. -/
structure Response where
  ok : Bool
  json : Except String AnalysisData

/-- The network for the POST: URL and request body to the response, or the
message of the rejection of `fetch`. -/
abbrev Post := String → String → Except String Response

/-- The `.pagination-controls` element of one keyword. -/
structure Controls where
  pageInfo : String
  prevDisabled : Bool
  nextDisabled : Bool
  deriving DecidableEq, Repr

/-- What `renderManualResults` emits for one keyword: the "No manual results
found." paragraph, or the container `#resultId` showing one result, followed by
the pagination controls when there is more than one result.  `resultId` and
`keyword` are also the arguments written into the `onclick` attributes. -/
inductive ManualItem where
  | noResults (keyword : String)
  | result (resultId keyword : String) (container : DictionaryEntry)
      (controls : Option Controls)
  deriving DecidableEq, Repr

/-- The contents of `#results-section`. -/
inductive View where
  | initial
  | spinner
  | error
  | results (data : AnalysisData) (manual : List ManualItem)
  deriving DecidableEq, Repr

/-- The state of the page: the global `manualResultsData`, the results
section, the alerts shown, the errors logged and the requests issued. -/
structure Page where
  manualResultsData : List (String × List DictionaryEntry)
  resultsSection : View
  resultsDisplayed : Bool
  alerts : List String
  consoleErrors : List String
  requests : List (String × String)
  deriving DecidableEq, Repr

/-- The page when the script starts: `let manualResultsData = {};`. -/
def Page.start : Page :=
  { manualResultsData := [], resultsSection := View.initial, resultsDisplayed := false,
    alerts := [], consoleErrors := [], requests := [] }

/-! ## Numbers and text -/

/-- Conversion of an integer to text, as in a template literal. -/
def numberToString : Int → String
  | Int.ofNat n => ⟨Nat.toDigits 10 n⟩
  | Int.negSucc n => ⟨'-' :: Nat.toDigits 10 (n + 1)⟩

/-- Value of a run of decimal digits. -/
def digitsValue (digits : List Char) : Nat :=
  digits.foldl (fun value c => value * 10 + (c.toNat - 48)) 0

/-- The built-in `parseInt` in base ten: leading white space, an optional
sign, then the longest run of digits; `none` is `NaN`.  The hexadecimal form
(`0x...`) is not modelled. -/
def parseInt (s : String) : Option Int :=
  let rest := s.data.dropWhile isWhiteSpace
  let negative := rest.head? == some '-'
  let rest :=
    match rest with
    | '-' :: tail => tail
    | '+' :: tail => tail
    | other => other
  let digits := rest.takeWhile Char.isDigit
  if digits.isEmpty then none
  else
    let value : Int := Int.ofNat (digitsValue digits)
    some (if negative then -value else value)

/-- The text before the first occurrence of `separator`, the whole text when it
does not occur: `text.split(separator)[0]` for a non-empty separator. -/
def beforeSeparator (separator : List Char) : List Char → List Char
  | [] => []
  | c :: rest =>
    if separator.isPrefixOf (c :: rest) then [] else c :: beforeSeparator separator rest

/-- The replacement `keyword.replace(/\s+/g, '-')`: every maximal run of white
space becomes one hyphen.  `inRun` says that the previous character was white
space. -/
def hyphenateFrom (inRun : Bool) : List Char → List Char
  | [] => []
  | c :: rest =>
    if isWhiteSpace c then
      if inRun then hyphenateFrom true rest else '-' :: hyphenateFrom true rest
    else c :: hyphenateFrom false rest

/-- The `resultId` of a keyword in `renderManualResults`. -/
def resultIdOf (keyword : String) : String :=
  "manual-result-" ++ String.mk (hyphenateFrom false keyword.data)

/-! ## Rendering -/

/-- The body of the loop of `renderManualResults` for one keyword. -/
def renderManualItem (keyword : String) (results : List DictionaryEntry) : ManualItem :=
  match results with
  | [] => ManualItem.noResults keyword
  | first :: _ =>
    ManualItem.result (resultIdOf keyword) keyword first
      (if results.length > 1 then
        some { pageInfo := "1 / " ++ numberToString (Int.ofNat results.length),
               prevDisabled := true, nextDisabled := false }
      else none)

/-- The function `renderManualResults`. -/
def renderManualResults (manualResults : List (String × List DictionaryEntry)) :
    List ManualItem :=
  manualResults.map (fun entry => renderManualItem entry.1 entry.2)

/-- The function `renderResults`. -/
def renderResults (data : AnalysisData) (page : Page) : Page :=
  { page with
    manualResultsData := data.manual_search_results,
    resultsSection := View.results data (renderManualResults data.manual_search_results) }

/-- The click handler of `#analyze-button`; `hadithInput` is the value of
`#hadith-input` at the click. -/
def analyzeButtonClick (post : Post) (hadithInput : String) (page : Page) : Page :=
  let hadithText := trim hadithInput
  if !truthy (some hadithText) then
    { page with alerts := page.alerts ++ ["Please enter Hadith text to analyze."] }
  else
    let url := "/api/analysis/complete-analysis/"
    let page :=
      { page with
        resultsDisplayed := true, resultsSection := View.spinner,
        requests := page.requests ++ [(url, hadithText)] }
    let failed (reason : String) : Page :=
      { page with
        consoleErrors := page.consoleErrors ++ ["Error fetching analysis: " ++ reason],
        resultsSection := View.error }
    match post url hadithText with
    | Except.error reason => failed reason
    | Except.ok response =>
      if !response.ok then failed "Failed to get analysis results."
      else
        match response.json with
        | Except.error reason => failed reason
        | Except.ok data => renderResults data page

/-! ## Pagination -/

/-- The index in document order of the element `getElementById(resultId)`
returns: the first container with that id. -/
def findContainer (resultId : String) : List ManualItem → Option Nat
  | [] => none
  | ManualItem.noResults _ :: rest => (findContainer resultId rest).map (· + 1)
  | ManualItem.result id _ _ _ :: rest =>
    if id = resultId then some 0 else (findContainer resultId rest).map (· + 1)

/-- The function `changeManualResult` on the manual-results block. -/
def changeManualResult (manualResultsData : List (String × List DictionaryEntry))
    (resultId : String) (direction : Int) (keyword : String) (manual : List ManualItem) :
    Option (List ManualItem) :=
  let results := manualResultsData.lookup keyword
  match findContainer resultId manual with
  | none => none
  | some position =>
    match manual.get? position with
    | some (ManualItem.result id shownKeyword _ (some controls)) =>
      match parseInt (String.mk (beforeSeparator " / ".data controls.pageInfo.data)) with
      | none => none
      | some shown =>
        let currentIndex : Int := shown - 1 + direction
        match results with
        | none => none
        | some results =>
          if currentIndex < 0 then none
          else
            match results.get? currentIndex.toNat with
            | none => none
            | some result =>
              some (manual.set position
                (ManualItem.result id shownKeyword result
                  (some
                    { pageInfo :=
                        numberToString (currentIndex + 1) ++ " / "
                          ++ numberToString (Int.ofNat results.length),
                      prevDisabled := currentIndex == 0,
                      nextDisabled := currentIndex == Int.ofNat results.length - 1 })))
    | _ => none

/-- The two buttons of a pagination control. -/
inductive Button where
  | prev
  | next
  deriving DecidableEq, Repr

/-- The `direction` argument in the `onclick` attribute of a button. -/
def Button.direction : Button → Int
  | Button.prev => -1
  | Button.next => 1

/-- A click on a button of the item at `position`.  A button that does not
exist or is disabled fires nothing; an enabled one runs its `onclick`. -/
def click (manualResultsData : List (String × List DictionaryEntry)) (position : Nat)
    (button : Button) (manual : List ManualItem) : Option (List ManualItem) :=
  match manual.get? position with
  | some (ManualItem.result resultId keyword _ (some controls)) =>
    let disabled :=
      match button with
      | Button.prev => controls.prevDisabled
      | Button.next => controls.nextDisabled
    if disabled then some manual
    else changeManualResult manualResultsData resultId button.direction keyword manual
  | _ => some manual

/-- A run of clicks; `none` when one of them throws. -/
def clicks (manualResultsData : List (String × List DictionaryEntry)) :
    List (Nat × Button) → List ManualItem → Option (List ManualItem)
  | [], manual => some manual
  | (position, button) :: rest, manual =>
    match click manualResultsData position button manual with
    | none => none
    | some next => clicks manualResultsData rest next

/-! ## Vocabulary of the pagination claim -/

/-- The controls as the claim describes them for the current index `i` of `n`
results: the page info reads `i+1 / n`, Prev is disabled exactly at the first
result and Next exactly at the last. -/
def controlsAt (i n : Nat) : Controls :=
  { pageInfo := numberToString (Int.ofNat (i + 1)) ++ " / " ++ numberToString (Int.ofNat n),
    prevDisabled := i == 0,
    nextDisabled := i + 1 == n }

/-- The item of the block shows a result of its own keyword at an index in
range, with the controls of that index. -/
def ItemShows (entry : String × List DictionaryEntry) (item : ManualItem) : Prop :=
  (entry.2 = [] ∧ item = ManualItem.noResults entry.1) ∨
    ∃ i result, entry.2.get? i = some result ∧
      item = ManualItem.result (resultIdOf entry.1) entry.1 result
        (if entry.2.length > 1 then some (controlsAt i entry.2.length) else none)

/-! ## Test data -/

/-- A result with the given keyword text. -/
def sampleResult (keyword_text : String) : DictionaryEntry :=
  { keyword_text := keyword_text, meaning := some "deed", description := "",
    total_occurrences := 0, occurrences := [] }

/-- Manual results of two keywords that differ in a space against a hyphen:
both get the result id `manual-result-good-deed`. -/
def collidingResults : List (String × List DictionaryEntry) :=
  [ ("good deed", [sampleResult "a1", sampleResult "a2", sampleResult "a3"]),
    ("good-deed", [sampleResult "b1", sampleResult "b2"]) ]

/-- Manual results of two keywords with different result ids. -/
def distinctResults : List (String × List DictionaryEntry) :=
  [ ("good deed", [sampleResult "a1", sampleResult "a2", sampleResult "a3"]),
    ("patience", [sampleResult "b1", sampleResult "b2"]),
    ("mercy", []) ]

end Analysis

/-! # The keywords page (`frontend/keywords.js`)

`loadKeywords`, `displayKeywords`, `getFilteredKeywords` and the row
formatting, with the page state they read and write.

* `toLowerCase` is an argument, as for the dictionary search.
* `regExpValid source` says whether `new RegExp(source, 'gi')` succeeds; it is
  an argument, `highlightSearchTerm` throws a `SyntaxError` where it is false.
  The markup that the replacement produces is not modelled: a cell records the
  formatted text and the term marked in it.
* A function that can throw returns the page as the throw leaves it together
  with the message of the error, or `none` for the value when it throws before
  writing anything. -/

namespace Keywords

open QuranSearch (includes truthy trimChars)

/-- The object `allKeywords`.  A property is `none` when it is absent; a
property that is present with a falsy value passes for absent. -/
structure KeywordsData where
  english : Option (List String)
  arabic : Option (List String)
  urdu : Option (List String)
  deriving DecidableEq, Repr

/-- The values of `#language-filter`. -/
inductive Filter where
  | all
  | english
  | arabic
  | urdu
  deriving DecidableEq, Repr

/-- What `fetch('/api/keywords')` resolves to. -/
structure Response where
  ok : Bool
  status : Nat
  statusText : String
  json : Except String KeywordsData

/-- The network: the response, or the message of the rejection of `fetch`. -/
abbrev Fetch := Except String Response

/-- The argument `rowData` of `createKeywordRow`. -/
structure RowData where
  index : Nat
  english : String
  arabic : String
  urdu : String
  deriving DecidableEq, Repr

/-- What `highlightSearchTerm` returns: the text as it is, or the text with the
occurrences of a term wrapped in highlight spans. -/
inductive Highlighted where
  | plain (text : String)
  | marked (text term : String)
  deriving DecidableEq, Repr

/-- One `.keyword-row`: the data it was built from and the contents of its
three cells (`none`: the cell is left empty). -/
structure Row where
  rowData : RowData
  englishCell : Option Highlighted
  arabicCell : Option Highlighted
  urduCell : Option Highlighted
  deriving DecidableEq, Repr

/-- The state of the keywords page: the three globals and the parts of the
document the script writes. -/
structure Page where
  allKeywords : KeywordsData
  currentFilter : Filter
  searchQuery : String
  loadingSpinnerShown : Bool
  keywordsGridShown : Bool
  errorMessageShown : Bool
  rows : List Row
  totalKeywords : Nat
  englishCount : Nat
  arabicCount : Nat
  urduCount : Nat
  englishVisible : Nat
  arabicVisible : Nat
  urduVisible : Nat
  visibleCount : Nat
  consoleErrors : List String
  deriving DecidableEq, Repr

/-- The page when the script starts: `allKeywords = {}`, `currentFilter =
'all'`, `searchQuery = ''`. -/
def Page.start : Page :=
  { allKeywords := { english := none, arabic := none, urdu := none },
    currentFilter := Filter.all, searchQuery := "",
    loadingSpinnerShown := false, keywordsGridShown := false, errorMessageShown := false,
    rows := [], totalKeywords := 0, englishCount := 0, arabicCount := 0, urduCount := 0,
    englishVisible := 0, arabicVisible := 0, urduVisible := 0, visibleCount := 0,
    consoleErrors := [] }

/-! ## Show and hide -/

/-- The function `showLoading`. -/
def showLoading (page : Page) : Page :=
  { page with loadingSpinnerShown := true, keywordsGridShown := false }

/-- The function `hideLoading`. -/
def hideLoading (page : Page) : Page :=
  { page with loadingSpinnerShown := false }

/-- The function `showKeywordsGrid`. -/
def showKeywordsGrid (page : Page) : Page :=
  { page with keywordsGridShown := true }

/-- The function `showError`. -/
def showError (page : Page) : Page :=
  { page with errorMessageShown := true, keywordsGridShown := false }

/-- The function `hideError`. -/
def hideError (page : Page) : Page :=
  { page with errorMessageShown := false }

/-! ## Formatting a keyword -/

/-- The built-in `split` on one separator character. -/
def splitOn (separator : Char) : List Char → List (List Char)
  | [] => [[]]
  | c :: rest =>
    if c = separator then [] :: splitOn separator rest
    else
      match splitOn separator rest with
      | [] => [[c]]
      | part :: parts => (c :: part) :: parts

/-- The built-in `join`. -/
def joinWith (separator : List Char) : List (List Char) → List Char
  | [] => []
  | [part] => part
  | part :: next :: rest => part ++ separator ++ joinWith separator (next :: rest)

/-- The character class `[a-z]`. -/
def isAsciiLower (c : Char) : Bool := 97 ≤ c.toNat && c.toNat ≤ 122

/-- The character class `[A-Z]`. -/
def isAsciiUpper (c : Char) : Bool := 65 ≤ c.toNat && c.toNat ≤ 90

/-- The replacement `part.replace(/([a-z])([A-Z])/g, '$1 $2')`: a lowercase
ASCII letter followed by an uppercase ASCII letter gets a space after it.  The
scan of the regular expression goes on after the pair it matched; the second
letter of a pair is uppercase and starts no pair, so going on at the second
letter gives the same text (`spaceCamelCase_pair`). -/
def spaceCamelCase : List Char → List Char
  | [] => []
  | a :: tail =>
    if isAsciiLower a && (tail.head?.map isAsciiUpper).getD false then
      a :: ' ' :: spaceCamelCase tail
    else a :: spaceCamelCase tail

/-- The body of the `map` over `parts` in `processAndFormatKeyword`. -/
def correctPart (part : List Char) : List Char :=
  let spacedPart := spaceCamelCase part
  if "make".data.isPrefixOf spacedPart && spacedPart.length > 4 && !spacedPart.contains ' ' then
    "make ".data ++ spacedPart.drop 4
  else spacedPart

/-- The helper `processAndFormatKeyword` of `createKeywordRow`. -/
def processAndFormatKeyword (keyword : String) : String :=
  if !truthy (some keyword) then ""
  else
    let parts := (splitOn ',' keyword.data).map trimChars
    let correctedParts := parts.map correctPart
    ⟨joinWith ", ".data correctedParts⟩

/-- No lowercase ASCII letter is immediately followed by an uppercase one. -/
def NoCamelCase (text : List Char) : Prop :=
  ∀ x y, [x, y] <:+: text → ¬ (isAsciiLower x = true ∧ isAsciiUpper y = true)

/-- The text `spaced` is `part` with spaces inserted: `part` is left when
characters of `spaced` are struck out, and the two hold the same characters
other than spaces. -/
def SpacesInserted (part spaced : List Char) : Prop :=
  List.Sublist part spaced ∧
    spaced.filter (fun c => c != ' ') = part.filter (fun c => c != ' ')

/-- The function `highlightSearchTerm`; `none` is the `SyntaxError` of the
`RegExp` constructor. -/
def highlightSearchTerm (regExpValid : String → Bool) (text searchTerm : String) :
    Option Highlighted :=
  if !truthy (some searchTerm) then some (Highlighted.plain text)
  else if regExpValid ("(" ++ searchTerm ++ ")") then some (Highlighted.marked text searchTerm)
  else none

/-- The contents of one cell in `createKeywordRow`: `none` when the handler
throws, `some none` when the cell stays empty. -/
def renderCell (regExpValid : String → Bool) (searchQuery keyword : String) :
    Option (Option Highlighted) :=
  if truthy (some keyword) then
    match highlightSearchTerm regExpValid (processAndFormatKeyword keyword) searchQuery with
    | none => none
    | some displayText => some (some displayText)
  else some none

/-- The function `createKeywordRow`: the row appended to `#keywords-rows`, or
`none` when building a cell throws. -/
def createKeywordRow (regExpValid : String → Bool) (searchQuery : String)
    (rowData : RowData) : Option Row :=
  match renderCell regExpValid searchQuery rowData.english with
  | none => none
  | some englishCell =>
    match renderCell regExpValid searchQuery rowData.arabic with
    | none => none
    | some arabicCell =>
      match renderCell regExpValid searchQuery rowData.urdu with
      | none => none
      | some urduCell =>
        some { rowData := rowData, englishCell := englishCell, arabicCell := arabicCell,
               urduCell := urduCell }

/-- A `forEach` of `createKeywordRow`: the rows appended before the first throw
and whether a throw ended the loop. -/
def createKeywordRows (regExpValid : String → Bool) (searchQuery : String) :
    List RowData → List Row × Bool
  | [] => ([], false)
  | rowData :: rest =>
    match createKeywordRow regExpValid searchQuery rowData with
    | none => ([], true)
    | some row =>
      let (rows, threw) := createKeywordRows regExpValid searchQuery rest
      (row :: rows, threw)

/-! ## Filtering -/

/-- The length of an array property, `0` when the property is absent:
`allKeywords.english ? allKeywords.english.length : 0`. -/
def lengthOrZero (keywords : Option (List String)) : Nat :=
  match keywords with
  | none => 0
  | some list => list.length

/-- The value of `maxLength`. -/
def maxLength (data : KeywordsData) : Nat :=
  max (lengthOrZero data.english) (max (lengthOrZero data.arabic) (lengthOrZero data.urdu))

/-- One of `englishMatch`, `arabicMatch`, `urduMatch` in `getFilteredKeywords`:
`keywords[i] && keywords[i].toLowerCase().includes(searchLower)`. -/
def guardedMatch (toLowerCase : String → String) (searchLower : String)
    (keywords : List String) (i : Nat) : Bool :=
  match keywords.get? i with
  | none => false
  | some keyword => truthy (some keyword) && includes (toLowerCase keyword) searchLower

/-- The value of `matchingIndices` in `getFilteredKeywords`, in insertion
order; `none` when the loop body reads an index of an absent array. -/
def matchingIndices (toLowerCase : String → String) (searchQuery : String)
    (data : KeywordsData) : Option (List Nat) :=
  let searchLower := toLowerCase searchQuery
  if maxLength data = 0 then some []
  else
    match data.english, data.arabic, data.urdu with
    | some english, some arabic, some urdu =>
      some ((List.range (maxLength data)).filter (fun i =>
        guardedMatch toLowerCase searchLower english i
          || guardedMatch toLowerCase searchLower arabic i
          || guardedMatch toLowerCase searchLower urdu i))
    | _, _, _ => none

/-- The language filter of `getFilteredKeywords`: the copy of `allKeywords` for
'all', the one selected property (`[]` when absent) otherwise. -/
def applyLanguageFilter (currentFilter : Filter) (data : KeywordsData) : KeywordsData :=
  match currentFilter with
  | Filter.all => data
  | Filter.english =>
    { english := some (data.english.getD []), arabic := none, urdu := none }
  | Filter.arabic =>
    { english := none, arabic := some (data.arabic.getD []), urdu := none }
  | Filter.urdu =>
    { english := none, arabic := none, urdu := some (data.urdu.getD []) }

/-- The body of the `forEach` over `Object.keys(filtered)` for one language:
the property of `filtered` is replaced when it is one of its keys and
`allKeywords` has the array; the reads past the end of the array
(`undefined`) are filtered out. -/
def selectRows (indices : List Nat) (filtered all : Option (List String)) :
    Option (List String) :=
  match filtered, all with
  | some _, some keywords => some (indices.filterMap (fun index => keywords.get? index))
  | other, _ => other

/-- The function `getFilteredKeywords`; `none` when it throws. -/
def getFilteredKeywords (toLowerCase : String → String) (page : Page) :
    Option KeywordsData :=
  let filtered := applyLanguageFilter page.currentFilter page.allKeywords
  if truthy (some page.searchQuery) then
    match matchingIndices toLowerCase page.searchQuery page.allKeywords with
    | none => none
    | some indices =>
      some
        { english := selectRows indices filtered.english page.allKeywords.english,
          arabic := selectRows indices filtered.arabic page.allKeywords.arabic,
          urdu := selectRows indices filtered.urdu page.allKeywords.urdu }
  else some filtered

/-! ## Display -/

/-- The function `updateStats`. -/
def updateStats (page : Page) : Page :=
  { page with
    totalKeywords := lengthOrZero page.allKeywords.english,
    englishCount := lengthOrZero page.allKeywords.english,
    arabicCount := lengthOrZero page.allKeywords.arabic,
    urduCount := lengthOrZero page.allKeywords.urdu }

/-- The function `updateVisibleCount`; it throws when `getFilteredKeywords`
does. -/
def updateVisibleCount (toLowerCase : String → String) (page : Page) : Option Page :=
  match getFilteredKeywords toLowerCase page with
  | none => none
  | some filtered =>
    some { page with
      visibleCount :=
        lengthOrZero filtered.english + lengthOrZero filtered.arabic
          + lengthOrZero filtered.urdu }

/-- One of `englishKeyword`, `arabicKeyword`, `urduKeyword` in the search
branch of `displayKeywords`: `keywords[i] || ''`. -/
def keywordOrEmpty (keywords : List String) (i : Nat) : String :=
  match keywords.get? i with
  | none => ""
  | some keyword => if truthy (some keyword) then keyword else ""

/-- The value of `matchingRows` in the search branch of `displayKeywords`;
`none` when the loop body reads an index of an absent array. -/
def matchingRows (toLowerCase : String → String) (searchQuery : String)
    (data : KeywordsData) : Option (List RowData) :=
  let searchLower := toLowerCase searchQuery
  if maxLength data = 0 then some []
  else
    match data.english, data.arabic, data.urdu with
    | some english, some arabic, some urdu =>
      some ((List.range (maxLength data)).filterMap (fun i =>
        let englishKeyword := keywordOrEmpty english i
        let arabicKeyword := keywordOrEmpty arabic i
        let urduKeyword := keywordOrEmpty urdu i
        if includes (toLowerCase englishKeyword) searchLower
            || includes (toLowerCase arabicKeyword) searchLower
            || includes (toLowerCase urduKeyword) searchLower then
          some { index := i + 1, english := englishKeyword, arabic := arabicKeyword,
                 urdu := urduKeyword }
        else none))
    | _, _, _ => none

/-- The rows of the branch without a search query: one per index below the
longest filtered list, a missing keyword shown as `''`. -/
def plainRows (filtered : KeywordsData) : List RowData :=
  (List.range (maxLength filtered)).map (fun i =>
    { index := i + 1,
      english := (filtered.english.bind (fun list => list.get? i)).getD "",
      arabic := (filtered.arabic.bind (fun list => list.get? i)).getD "",
      urdu := (filtered.urdu.bind (fun list => list.get? i)).getD "" })

/-- The function `displayKeywords`: the page it leaves, and the message of the
error when it throws. -/
def displayKeywords (toLowerCase : String → String) (regExpValid : String → Bool)
    (page : Page) : Page × Option String :=
  match getFilteredKeywords toLowerCase page with
  | none => (page, some "TypeError")
  | some filteredKeywords =>
    let page := { page with rows := [] }
    if truthy (some page.searchQuery) then
      match matchingRows toLowerCase page.searchQuery page.allKeywords with
      | none => (page, some "TypeError")
      | some matching =>
        let (rows, threw) := createKeywordRows regExpValid page.searchQuery matching
        let page := { page with rows := rows }
        if threw then (page, some "SyntaxError")
        else
          let page :=
            { page with
              englishVisible := matching.length, arabicVisible := matching.length,
              urduVisible := matching.length }
          match updateVisibleCount toLowerCase page with
          | none => (page, some "TypeError")
          | some page => (showKeywordsGrid page, none)
    else
      let (rows, threw) := createKeywordRows regExpValid page.searchQuery (plainRows filteredKeywords)
      let page := { page with rows := rows }
      if threw then (page, some "SyntaxError")
      else
        let page :=
          { page with
            englishVisible := lengthOrZero filteredKeywords.english,
            arabicVisible := lengthOrZero filteredKeywords.arabic,
            urduVisible := lengthOrZero filteredKeywords.urdu }
        match updateVisibleCount toLowerCase page with
        | none => (page, some "TypeError")
        | some page => (showKeywordsGrid page, none)

/-- The function `loadKeywords`. -/
def loadKeywords (toLowerCase : String → String) (regExpValid : String → Bool)
    (fetch : Fetch) (page : Page) : Page :=
  let page := hideError (showLoading page)
  let failed (page : Page) (reason : String) : Page :=
    hideLoading (showError
      { page with consoleErrors := page.consoleErrors ++ ["Error loading keywords: " ++ reason] })
  match fetch with
  | Except.error reason => failed page reason
  | Except.ok response =>
    if !response.ok then
      failed page ("HTTP " ++ toString response.status ++ ": " ++ response.statusText)
    else
      match response.json with
      | Except.error reason => failed page reason
      | Except.ok data =>
        let page := { page with allKeywords := data }
        if data.english.isNone || data.arabic.isNone || data.urdu.isNone then
          failed
            { page with consoleErrors := page.consoleErrors ++ ["Invalid data structure"] }
            "Invalid keywords data structure"
        else
          match displayKeywords toLowerCase regExpValid (updateStats page) with
          | (page, some reason) => failed page reason
          | (page, none) => hideLoading page

/-- The function `handleSearch`; `searchInput` is the value of `#search-input`.
An error thrown by `displayKeywords` is not caught: the page stays as the throw
left it. -/
def handleSearch (toLowerCase : String → String) (regExpValid : String → Bool)
    (searchInput : String) (page : Page) : Page :=
  (displayKeywords toLowerCase regExpValid
    { page with searchQuery := ⟨trimChars searchInput.data⟩ }).1

/-- The row data that the search branch of `displayKeywords` builds for the
original index `i`: the label `i + 1` and the three keywords of that index,
`''` where a list has none. -/
def searchRowAt (english arabic urdu : List String) (i : Nat) : RowData :=
  { index := i + 1, english := keywordOrEmpty english i, arabic := keywordOrEmpty arabic i,
    urdu := keywordOrEmpty urdu i }

/-! ## Test data -/

/-- Three keyword lists of unequal length: the Arabic list lacks the third row. -/
def sampleKeywords : KeywordsData :=
  { english := some ["Mercy", "Prayer", "makePatience"],
    arabic := some ["رحمة", "صلاة"],
    urdu := some ["رحمت", "نماز", "صبر (sabr)"] }

/-- A page holding `sampleKeywords` with a search query. -/
def samplePage (searchQuery : String) : Page :=
  { Page.start with allKeywords := sampleKeywords, searchQuery := searchQuery }

/-- A stand-in for `regExpValid`: the parentheses of the source are balanced.
It agrees with the constructor on sources made of letters, digits, spaces and
parentheses. -/
def balancedParentheses (source : String) : Bool :=
  (source.data.foldl
    (fun (state : Option Nat) c =>
      match state with
      | none => none
      | some depth =>
        if c = '(' then some (depth + 1)
        else if c = ')' then (if depth = 0 then none else some (depth - 1))
        else some depth)
    (some 0)) == some 0

/-- A successful response carrying `data`. -/
def okResponse (data : KeywordsData) : Fetch :=
  Except.ok { ok := true, status := 200, statusText := "OK", json := Except.ok data }

/-- A response body without the `urdu` property. -/
def invalidKeywords : KeywordsData :=
  { english := some ["Mercy"], arabic := some ["رحمة"], urdu := none }

/-- The page after a first successful `loadKeywords` of `sampleKeywords`. -/
def loadedKeywordsPage : Page :=
  loadKeywords QuranSearch.asciiLower balancedParentheses (okResponse sampleKeywords) Page.start

end Keywords
namespace QuranSearch
/-! ## Built-ins against their list counterparts -/

theorem flat_foldl_eq {α : Type} (results : List (List α)) (acc : List α) :
    results.foldl (fun acc part => acc ++ part) acc = acc ++ results.flatten := by
  induction results generalizing acc with
  | nil => simp
  | cons part rest ih => simp [ih, List.append_assoc]

theorem flat_eq_flatten {α : Type} (results : List (List α)) :
    flat results = results.flatten := by
  simp [flat, flat_foldl_eq]

theorem arrayFilter_foldl_eq {α : Type} (callback : α → Bool) (xs kept : List α) :
    xs.foldl (fun kept x => if callback x then kept ++ [x] else kept) kept
      = kept ++ xs.filter callback := by
  induction xs generalizing kept with
  | nil => simp
  | cons x rest ih =>
    by_cases hx : callback x = true
    · simp [ih, hx, List.append_assoc]
    · simp [ih, hx]

theorem arrayFilter_eq_filter {α : Type} (callback : α → Bool) (xs : List α) :
    arrayFilter callback xs = xs.filter callback := by
  simp [arrayFilter, arrayFilter_foldl_eq]

theorem includesFrom_iff (needle text : List Char) :
    includesFrom needle text = true ↔ needle <:+: text := by
  induction text with
  | nil => simp [includesFrom]
  | cons c rest ih =>
    simp only [includesFrom, Bool.or_eq_true, ih, List.isPrefixOf_iff_prefix]
    constructor
    · rintro (h | h)
      · exact h.isInfix
      · exact h.trans (List.suffix_cons c rest).isInfix
    · intro h
      rcases List.infix_cons_iff.mp h with h | h
      · exact Or.inl h
      · exact Or.inr h

theorem includes_iff (s searchString : String) :
    includes s searchString = true ↔ searchString.data <:+: s.data := by
  simp [includes, includesFrom_iff]

theorem truthy_some_iff (m : String) : truthy (some m) = true ↔ m ≠ "" := by
  cases m with
  | mk data =>
    cases data with
    | nil => simp [truthy, String.isEmpty, String.endPos, String.utf8ByteSize]
    | cons c cs =>
      simp only [truthy, ne_eq]
      constructor
      · intro _ h
        exact absurd (congrArg String.data h) (by simp)
      · intro _
        have hc := Char.utf8Size_pos c
        simp [String.isEmpty, String.endPos, String.utf8ByteSize, String.utf8ByteSize.go,
          String.Pos.ext_iff]
        omega

/-! ## The filter of `displayAyahs` -/

theorem matchesMeaning_iff (toLowerCase : String → String) (query : String)
    (entry : DictionaryEntry) :
    matchesMeaning toLowerCase query entry = true
      ↔ HasMeaning entry ∧ MeaningContains toLowerCase query entry := by
  unfold matchesMeaning HasMeaning MeaningContains
  cases hm : entry.meaning with
  | none => simp
  | some m => simp [truthy_some_iff, includes_iff]

theorem matchesMeaning_eq_decide (toLowerCase : String → String) (query : String)
    (entry : DictionaryEntry) :
    matchesMeaning toLowerCase query entry
      = decide (HasMeaning entry ∧ MeaningContains toLowerCase query entry) := by
  by_cases h : matchesMeaning toLowerCase query entry = true
  · rw [h]
    exact (decide_eq_true ((matchesMeaning_iff toLowerCase query entry).mp h)).symm
  · have hn : ¬ (HasMeaning entry ∧ MeaningContains toLowerCase query entry) :=
      fun hc => h ((matchesMeaning_iff toLowerCase query entry).mpr hc)
    rw [Bool.not_eq_true] at h
    rw [h]
    exact (decide_eq_false hn).symm

theorem matchingKeywords_eq_filter (toLowerCase : String → String) (query : String)
    (collection : List DictionaryEntry) :
    matchingKeywords toLowerCase query collection
      = collection.filter (matchesMeaning toLowerCase query) := by
  simp [matchingKeywords, arrayFilter_eq_filter]

theorem matchingKeywords_eq_nil (toLowerCase : String → String) (query : String)
    (collection : List DictionaryEntry)
    (hnone : ∀ entry ∈ collection, ¬ MeaningContains toLowerCase query entry) :
    matchingKeywords toLowerCase query collection = [] := by
  rw [matchingKeywords_eq_filter, List.filter_eq_nil_iff]
  intro entry hmem hmatch
  exact hnone entry hmem ((matchesMeaning_iff toLowerCase query entry).mp hmatch).2

/-! ## `Promise.all` and `loadAllData` -/

theorem promiseAll_map_ok {α β : Type} (f : α → Except String β) (g : α → β) (xs : List α)
    (hall : ∀ x ∈ xs, f x = Except.ok (g x)) :
    promiseAll (xs.map f) = Except.ok (xs.map g) := by
  induction xs with
  | nil => rfl
  | cons x rest ih =>
    have hx : f x = Except.ok (g x) := hall x (List.mem_cons_self x rest)
    have hrest := ih (fun y hy => hall y (List.mem_cons_of_mem x hy))
    simp [promiseAll, hx, hrest]

theorem promiseAll_error {α : Type} (ps : List (Except String α))
    (hbad : ∃ p ∈ ps, ∃ reason, p = Except.error reason) :
    ∃ reason, promiseAll ps = Except.error reason := by
  induction ps with
  | nil => simp at hbad
  | cons p rest ih =>
    cases p with
    | error reason => exact ⟨reason, rfl⟩
    | ok value =>
      have hrest : ∃ q ∈ rest, ∃ reason, q = Except.error reason := by
        obtain ⟨q, hq, reason, hreason⟩ := hbad
        rcases List.mem_cons.mp hq with h | h
        · subst h; cases hreason
        · exact ⟨q, h, reason, hreason⟩
      obtain ⟨reason, hreason⟩ := ih hrest
      exact ⟨reason, by simp [promiseAll, hreason]⟩

theorem fetchPartition_of_succeeds (fetch : Fetch) (parts : String → List DictionaryEntry)
    (hall : AllSucceed fetch parts) (file : String) (hfile : file ∈ dictionaryFiles) :
    fetchPartition fetch file = Except.ok (parts file) := by
  simp [fetchPartition, hall file hfile]

theorem fetchPartition_of_fails (fetch : Fetch) (file : String)
    (hfail : requestFails fetch file = true) :
    ∃ reason, fetchPartition fetch file = Except.error reason := by
  unfold requestFails at hfail
  unfold fetchPartition
  cases hf : fetch (partitionUrl file) with
  | none => exact ⟨_, rfl⟩
  | some response =>
    rw [hf] at hfail
    cases hok : response.ok with
    | false => exact ⟨"Failed to load " ++ file, by simp [hok]⟩
    | true =>
      cases hj : response.json with
      | none => exact ⟨"invalid JSON", by simp [hok, hj]⟩
      | some body => simp [hok, hj] at hfail

/-- With an empty cache `displayAyahs` shows the spinner, loads, and paints the
matches found in whatever the load left in the cache. -/
theorem displayAyahs_of_empty (toLowerCase : String → String) (fetch : Fetch)
    (query : String) (page : Page) (hempty : page.allKeywordsData = []) :
    displayAyahs toLowerCase fetch query page
      = showMatching toLowerCase query
          (loadAllData fetch
            { page with resultsDisplayed := true, resultsSection := View.spinner }) := by
  simp only [displayAyahs, showMatching, viewOf, hempty, List.length_nil, if_true]
  split <;> simp_all

/-- With a non-empty cache `displayAyahs` paints the matches found in it and
does nothing else. -/
theorem displayAyahs_of_nonempty (toLowerCase : String → String) (fetch : Fetch)
    (query : String) (page : Page) (hne : page.allKeywordsData ≠ []) :
    displayAyahs toLowerCase fetch query page
      = showMatching toLowerCase query
          { page with resultsDisplayed := true, resultsSection := View.spinner } := by
  have hlen : ¬ page.allKeywordsData.length = 0 := fun h => hne (List.length_eq_zero.mp h)
  simp only [displayAyahs, showMatching, viewOf, hlen, if_false]
  split <;> simp_all

theorem displayAyahs_requests_of_nonempty (toLowerCase : String → String) (fetch : Fetch)
    (query : String) (page : Page) (hne : page.allKeywordsData ≠ []) :
    (displayAyahs toLowerCase fetch query page).requests = page.requests := by
  rw [displayAyahs_of_nonempty toLowerCase fetch query page hne]
  rfl

theorem displayAyahs_cache_of_nonempty (toLowerCase : String → String) (fetch : Fetch)
    (query : String) (page : Page) (hne : page.allKeywordsData ≠ []) :
    (displayAyahs toLowerCase fetch query page).allKeywordsData = page.allKeywordsData := by
  rw [displayAyahs_of_nonempty toLowerCase fetch query page hne]
  rfl

theorem searches_of_nonempty (toLowerCase : String → String) (calls : List (Fetch × String))
    (page : Page) (hne : page.allKeywordsData ≠ []) :
    (searches toLowerCase calls page).requests = page.requests ∧
      (searches toLowerCase calls page).allKeywordsData = page.allKeywordsData := by
  induction calls generalizing page with
  | nil => exact ⟨rfl, rfl⟩
  | cons call rest ih =>
    have hreq := displayAyahs_requests_of_nonempty toLowerCase call.1 call.2 page hne
    have hcache := displayAyahs_cache_of_nonempty toLowerCase call.1 call.2 page hne
    have hnext := ih (displayAyahs toLowerCase call.1 call.2 page) (by rw [hcache]; exact hne)
    simp only [searches, List.foldl_cons] at hnext ⊢
    exact ⟨hnext.1.trans hreq, hnext.2.trans hcache⟩

/-- A load whose requests all succeed: the cache becomes the concatenation of
the partitions, the rest of the page is untouched but for the request log. -/
theorem loadAllData_of_succeeds (fetch : Fetch) (parts : String → List DictionaryEntry)
    (page : Page) (hall : AllSucceed fetch parts) :
    loadAllData fetch page =
      { page with
        allKeywordsData := (dictionaryFiles.map parts).flatten,
        requests := page.requests ++ dictionaryFiles.map partitionUrl } := by
  have hp := promiseAll_map_ok (fun file => fetchPartition fetch file) parts dictionaryFiles
    (fun file hfile => fetchPartition_of_succeeds fetch parts hall file hfile)
  simp only [loadAllData, hp, flat_eq_flatten]

/-- A load with a failing request: the cache is not assigned, the error is
logged and shown. -/
theorem loadAllData_of_fails (fetch : Fetch) (page : Page) (file : String)
    (hfile : file ∈ dictionaryFiles) (hfail : requestFails fetch file = true) :
    ∃ reason, loadAllData fetch page =
      { page with
        requests := page.requests ++ dictionaryFiles.map partitionUrl,
        consoleErrors := page.consoleErrors ++ ["Error loading dictionary files: " ++ reason],
        resultsSection := View.loadError } := by
  obtain ⟨r, hr⟩ := fetchPartition_of_fails fetch file hfail
  obtain ⟨reason, hreason⟩ :=
    promiseAll_error (dictionaryFiles.map (fun file => fetchPartition fetch file))
      ⟨fetchPartition fetch file, List.mem_map.mpr ⟨file, hfile, rfl⟩, r, hr⟩
  exact ⟨reason, by simp only [loadAllData, hreason]⟩

theorem allSucceed_constNet (body : List DictionaryEntry) :
    AllSucceed (constNet body) (fun _ => body) :=
  fun _ _ => rfl

theorem allSucceed_okNet (parts : String → List DictionaryEntry) :
    AllSucceed (okNet parts) parts := by
  unfold AllSucceed dictionaryFiles
  simp only [List.forall_mem_cons, List.not_mem_nil, false_implies, implies_true, and_true]
  refine ⟨?_, ?_, ?_, ?_, ?_, ?_, ?_, ?_, ?_, ?_, ?_, ?_, ?_, ?_, ?_, ?_, ?_, ?_, ?_, ?_,
    ?_, ?_, ?_, ?_, ?_, ?_⟩ <;> rfl

theorem pair_le_sum (counts : List Nat) (i j : Nat) (hij : i < j) (hj : j < counts.length) :
    counts.get ⟨i, Nat.lt_trans hij hj⟩ + counts.get ⟨j, hj⟩ ≤ counts.sum := by
  induction counts generalizing i j with
  | nil => simp at hj
  | cons c rest ih =>
    cases j with
    | zero => omega
    | succ j =>
      have hj1 : j < rest.length := by simpa using hj
      cases i with
      | zero =>
        have hle : rest.get ⟨j, hj1⟩ ≤ rest.sum :=
          List.single_le_sum (fun _ _ => Nat.zero_le _) _ (List.get_mem rest j hj1)
        show c + rest.get ⟨j, hj1⟩ ≤ (c :: rest).sum
        rw [List.sum_cons]
        omega
      | succ i =>
        have hrest := ih i j (by omega) hj1
        show rest.get ⟨i, _⟩ + rest.get ⟨j, hj1⟩ ≤ (c :: rest).sum
        rw [List.sum_cons]
        omega

/-! ## C1: what the filter selects -/

/-- When lowercasing maps the empty string to itself and the lowercased query
is not empty, the selection is the one C1 states. -/
theorem matchingKeywords_of_nonempty_query (toLowerCase : String → String) (query : String)
    (collection : List DictionaryEntry) (hlower : toLowerCase "" = "")
    (hquery : toLowerCase query ≠ "") :
    matchingKeywords toLowerCase query collection
      = collection.filter (fun entry => decide (MeaningContains toLowerCase query entry)) := by
  rw [matchingKeywords_eq_filter]
  apply List.filter_congr
  intro entry _
  rw [matchesMeaning_eq_decide]
  have hiff : (HasMeaning entry ∧ MeaningContains toLowerCase query entry)
      ↔ MeaningContains toLowerCase query entry := by
    constructor
    · exact fun h => h.2
    · rintro ⟨m, hm, hsub⟩
      refine ⟨⟨m, hm, ?_⟩, ⟨m, hm, hsub⟩⟩
      intro hempty
      subst hempty
      rw [hlower] at hsub
      have hnil : (toLowerCase query).data = [] := List.eq_nil_of_infix_nil hsub
      exact hquery (String.ext hnil)
  exact decide_eq_decide.mpr hiff

/-! ## C2, C9: a successful load -/

/-- C2: when every partition request succeeds, `loadAllData` sets the cache to
the concatenation of the partitions' arrays in the order of `dictionaryFiles`;
nothing is deduplicated: an entry occurs in the cache as many times as it
occurs in all partitions together, so an entry present in two partition files
occurs at least twice. -/
theorem loadAllData_concatenates_partitions (fetch : Fetch)
    (parts : String → List DictionaryEntry) (page : Page) (hall : AllSucceed fetch parts) :
    (loadAllData fetch page).allKeywordsData = (dictionaryFiles.map parts).flatten ∧
      (∀ entry, (loadAllData fetch page).allKeywordsData.count entry
          = (dictionaryFiles.map (fun file => (parts file).count entry)).sum) ∧
      (∀ entry i j, ∀ hij : i < j, ∀ hj : j < dictionaryFiles.length,
          entry ∈ parts (dictionaryFiles.get ⟨i, Nat.lt_trans hij hj⟩) →
          entry ∈ parts (dictionaryFiles.get ⟨j, hj⟩) →
          2 ≤ (loadAllData fetch page).allKeywordsData.count entry) := by
  have hcache : (loadAllData fetch page).allKeywordsData = (dictionaryFiles.map parts).flatten := by
    rw [loadAllData_of_succeeds fetch parts page hall]
  have hcount : ∀ entry, (loadAllData fetch page).allKeywordsData.count entry
      = (dictionaryFiles.map (fun file => (parts file).count entry)).sum := by
    intro entry
    rw [hcache, List.count_flatten, List.map_map]
    rfl
  refine ⟨hcache, hcount, ?_⟩
  intro entry i j hij hj hi_mem hj_mem
  rw [hcount entry]
  have hlen : j < (dictionaryFiles.map (fun file => (parts file).count entry)).length := by
    simpa using hj
  have hsum := pair_le_sum (dictionaryFiles.map (fun file => (parts file).count entry)) i j hij hlen
  have hi_pos : 0 < (parts (dictionaryFiles.get ⟨i, Nat.lt_trans hij hj⟩)).count entry :=
    List.count_pos_iff.mpr hi_mem
  have hj_pos : 0 < (parts (dictionaryFiles.get ⟨j, hj⟩)).count entry :=
    List.count_pos_iff.mpr hj_mem
  simp only [List.get_eq_getElem, List.getElem_map] at hsum hi_pos hj_pos
  omega

/-- C2 at the network of scenario 1: `letter_b` precedes `letter_S` in
`dictionaryFiles`, so "righteousness" precedes "patience" in the cache. -/
theorem loadAllData_concatenates_partitions_witness :
    AllSucceed (okNet scenarioParts) scenarioParts ∧
      (loadAllData (okNet scenarioParts) Page.start).allKeywordsData
        = [righteousness, patience] :=
  ⟨allSucceed_okNet scenarioParts,
    (loadAllData_concatenates_partitions (okNet scenarioParts) scenarioParts Page.start
      (allSucceed_okNet scenarioParts)).1.trans (by decide)⟩

/-- C9: after a load whose requests all succeed, the length of the cache is the
sum of the entry counts of the partitions. -/
theorem loadAllData_length (fetch : Fetch) (parts : String → List DictionaryEntry)
    (page : Page) (hall : AllSucceed fetch parts) :
    (loadAllData fetch page).allKeywordsData.length
      = (dictionaryFiles.map (fun file => (parts file).length)).sum := by
  rw [loadAllData_of_succeeds fetch parts page hall]
  simp only [List.length_flatten, List.map_map]
  rfl

/-- C9 at the network of scenario 1: two entries in all. -/
theorem loadAllData_length_witness :
    AllSucceed (okNet scenarioParts) scenarioParts ∧
      (loadAllData (okNet scenarioParts) Page.start).allKeywordsData.length = 2 :=
  ⟨allSucceed_okNet scenarioParts,
    (loadAllData_length (okNet scenarioParts) scenarioParts Page.start
      (allSucceed_okNet scenarioParts)).trans (by decide)⟩

/-! ## C3: a failed load -/

/-- C4 (what the code does): when the cache is empty and a partition request
fails, `displayAyahs` ends with "No results found for this meaning." in the
results section: the error markup written by `loadAllData` is overwritten. -/
theorem displayAyahs_failed_load_ends_in_noResults (toLowerCase : String → String)
    (fetch : Fetch) (query : String) (page : Page) (k : Nat)
    (hk : k < dictionaryFiles.length)
    (hfail : requestFails fetch (dictionaryFiles.get ⟨k, hk⟩) = true)
    (hempty : page.allKeywordsData = []) :
    (displayAyahs toLowerCase fetch query page).resultsSection = View.noResults := by
  rw [displayAyahs_of_empty toLowerCase fetch query page hempty]
  obtain ⟨reason, hload⟩ :=
    loadAllData_of_fails fetch
      { page with resultsDisplayed := true, resultsSection := View.spinner } _
      (List.get_mem dictionaryFiles k hk) hfail
  rw [hload]
  simp [showMatching, viewOf, hempty, matchingKeywords, arrayFilter]

/-- C4 at the failing input: `letter_b` answers 404, the query is "anything". -/
theorem displayAyahs_failed_load_ends_in_noResults_witness :
    requestFails (notFoundNet "letter_b_ب.json" [patience])
        (dictionaryFiles.get ⟨2, by decide⟩) = true ∧
      Page.start.allKeywordsData = [] ∧
      (displayAyahs asciiLower (notFoundNet "letter_b_ب.json" [patience]) "anything"
        Page.start).resultsSection = View.noResults :=
  ⟨by decide, rfl,
    displayAyahs_failed_load_ends_in_noResults asciiLower
      (notFoundNet "letter_b_ب.json" [patience]) "anything" Page.start 2 (by decide)
      (by decide) rfl⟩

/-! ## C5: loading twice -/

/-- C5: when every partition request succeeds, a second `loadAllData` with the
same answers leaves the cache as the first one set it, the concatenation of
the partitions taken once. -/
theorem loadAllData_idempotent (fetch : Fetch) (parts : String → List DictionaryEntry)
    (page : Page) (hall : AllSucceed fetch parts) :
    (loadAllData fetch (loadAllData fetch page)).allKeywordsData
        = (loadAllData fetch page).allKeywordsData ∧
      (loadAllData fetch (loadAllData fetch page)).allKeywordsData
        = (dictionaryFiles.map parts).flatten := by
  rw [loadAllData_of_succeeds fetch parts (loadAllData fetch page) hall,
    loadAllData_of_succeeds fetch parts page hall]
  exact ⟨rfl, rfl⟩

/-- C5 at the network of scenario 1: after two loads the cache holds the two
entries once each. -/
theorem loadAllData_idempotent_witness :
    AllSucceed (okNet scenarioParts) scenarioParts ∧
      (loadAllData (okNet scenarioParts)
        (loadAllData (okNet scenarioParts) Page.start)).allKeywordsData
        = [righteousness, patience] :=
  ⟨allSucceed_okNet scenarioParts,
    (loadAllData_idempotent (okNet scenarioParts) scenarioParts Page.start
      (allSucceed_okNet scenarioParts)).2.trans (by decide)⟩

/-! ## C6: searching a loaded page -/

/-- C6: on a page whose cache is not empty, `displayAyahs` hands no URL to
`fetch` (it does not call `loadAllData`) and leaves the cache as it was. -/
theorem displayAyahs_loaded_frame (toLowerCase : String → String) (fetch : Fetch)
    (query : String) (page : Page) (hne : page.allKeywordsData ≠ []) :
    (displayAyahs toLowerCase fetch query page).requests = page.requests ∧
      (displayAyahs toLowerCase fetch query page).allKeywordsData = page.allKeywordsData :=
  ⟨displayAyahs_requests_of_nonempty toLowerCase fetch query page hne,
    displayAyahs_cache_of_nonempty toLowerCase fetch query page hne⟩

/-- C6 on the loaded page of scenario 1, searched while the network is down. -/
theorem displayAyahs_loaded_frame_witness :
    loadedPage.allKeywordsData ≠ [] ∧
      (displayAyahs asciiLower downNet "pati" loadedPage).requests = loadedPage.requests ∧
      (displayAyahs asciiLower downNet "pati" loadedPage).allKeywordsData
        = loadedPage.allKeywordsData :=
  ⟨by decide, displayAyahs_loaded_frame asciiLower downNet "pati" loadedPage (by decide)⟩

/-! ## C7: retry after a failed load -/

/-- C8, as stated, fails: when every partition file holds the empty array, the
load at page start succeeds (26 requests) and leaves the cache empty, and the
next `displayAyahs` loads again (26 more requests). -/
theorem displayAyahs_reloads_after_empty_load :
    AllSucceed (constNet []) (fun _ => []) ∧
      (pageLoad (constNet [])).requests.length = 26 ∧
      (displayAyahs asciiLower (constNet []) "patience" (pageLoad (constNet []))).requests.length
        = 52 :=
  ⟨allSucceed_constNet [], by decide, by decide⟩

/-- C8, amended: after a successful `loadAllData` whose partitions are not all
empty, no run of later `displayAyahs` calls, whatever the network answers,
hands a URL to `fetch` again, and the cache stays the loaded collection. -/
theorem searches_after_nonempty_load (toLowerCase : String → String) (fetch : Fetch)
    (parts : String → List DictionaryEntry) (page : Page) (calls : List (Fetch × String))
    (hall : AllSucceed fetch parts) (hne : (dictionaryFiles.map parts).flatten ≠ []) :
    (searches toLowerCase calls (loadAllData fetch page)).requests
        = (loadAllData fetch page).requests ∧
      (searches toLowerCase calls (loadAllData fetch page)).allKeywordsData
        = (dictionaryFiles.map parts).flatten := by
  have hcache : (loadAllData fetch page).allKeywordsData = (dictionaryFiles.map parts).flatten := by
    rw [loadAllData_of_succeeds fetch parts page hall]
  have hrun := searches_of_nonempty toLowerCase calls (loadAllData fetch page)
    (by rw [hcache]; exact hne)
  exact ⟨hrun.1, hrun.2.trans hcache⟩

/-- C8 amended, on scenario 1: three later searches, on networks that would
answer differently, leave the 26 requests of the first load as the only ones. -/
theorem searches_after_nonempty_load_witness :
    AllSucceed (okNet scenarioParts) scenarioParts ∧
      (dictionaryFiles.map scenarioParts).flatten ≠ [] ∧
      (searches asciiLower
        [(downNet, "pati"), (constNet [blank], "xyz-nomatch"), (okNet scenarioParts, "right")]
        (loadAllData (okNet scenarioParts) Page.start)).requests.length = 26 :=
  ⟨allSucceed_okNet scenarioParts, by decide,
    (congrArg List.length
      (searches_after_nonempty_load asciiLower (okNet scenarioParts) scenarioParts Page.start
        [(downNet, "pati"), (constNet [blank], "xyz-nomatch"), (okNet scenarioParts, "right")]
        (allSucceed_okNet scenarioParts) (by decide)).1).trans (by decide)⟩

/-! ## C10: a search without matches -/

/-- C10: on a page whose cache is not empty, a query that (lowercased) is a
substring of no entry's lowercased `meaning` has no matches, and
`displayAyahs` ends with "No results found for this meaning." in the results
section, not with the load error, and logs no error. -/
theorem displayAyahs_no_match (toLowerCase : String → String) (fetch : Fetch)
    (query : String) (page : Page) (hne : page.allKeywordsData ≠ [])
    (hnone : ∀ entry ∈ page.allKeywordsData, ¬ MeaningContains toLowerCase query entry) :
    matchingKeywords toLowerCase query page.allKeywordsData = [] ∧
      (displayAyahs toLowerCase fetch query page).resultsSection = View.noResults ∧
      (displayAyahs toLowerCase fetch query page).resultsSection ≠ View.loadError ∧
      (displayAyahs toLowerCase fetch query page).consoleErrors = page.consoleErrors := by
  have hnil := matchingKeywords_eq_nil toLowerCase query page.allKeywordsData hnone
  have hview : (displayAyahs toLowerCase fetch query page).resultsSection = View.noResults := by
    rw [displayAyahs_of_nonempty toLowerCase fetch query page hne]
    simp [showMatching, viewOf, hnil]
  refine ⟨hnil, hview, ?_, ?_⟩
  · rw [hview]
    exact View.noConfusion
  · rw [displayAyahs_of_nonempty toLowerCase fetch query page hne]
    rfl

/-- C10 at the query "xyz-nomatch" on the loaded page of scenario 1. -/
theorem displayAyahs_no_match_witness :
    loadedPage.allKeywordsData ≠ [] ∧
      (∀ entry ∈ loadedPage.allKeywordsData,
        ¬ MeaningContains asciiLower "xyz-nomatch" entry) ∧
      (displayAyahs asciiLower downNet "xyz-nomatch" loadedPage).resultsSection
        = View.noResults :=
  ⟨by decide, by decide,
    (displayAyahs_no_match asciiLower downNet "xyz-nomatch" loadedPage (by decide)
      (by decide)).2.1⟩

/-! ## C11: case-insensitive matching -/

theorem asciiLower_eq_empty_iff (s : String) : asciiLower s = "" ↔ s = "" := by
  constructor
  · intro h
    have hdata : s.data.map Char.toLower = [] := congrArg String.data h
    exact String.ext (List.map_eq_nil_iff.mp hdata)
  · intro h
    subst h
    rfl

/-- C11: matching is case-insensitive in the query and in the `meaning` field.
Two queries with the same lowercased form select the same entries of every
collection, and replacing the `meaning` of an entry by a string with the same
lowercased form does not change whether the entry is selected.  The second
part uses that lowercasing yields the empty string exactly for the empty
string, as the built-in does. -/
theorem matchingKeywords_case_insensitive (toLowerCase : String → String)
    (hlower : ∀ s, toLowerCase s = "" ↔ s = "") :
    (∀ (collection : List DictionaryEntry) (q₁ q₂ : String),
        toLowerCase q₁ = toLowerCase q₂ →
        matchingKeywords toLowerCase q₁ collection
          = matchingKeywords toLowerCase q₂ collection) ∧
      (∀ (query : String) (entry : DictionaryEntry) (m₁ m₂ : String),
        entry.meaning = some m₁ → toLowerCase m₁ = toLowerCase m₂ →
        matchesMeaning toLowerCase query { entry with meaning := some m₂ }
          = matchesMeaning toLowerCase query entry) := by
  constructor
  · intro collection q₁ q₂ hq
    rw [matchingKeywords_eq_filter, matchingKeywords_eq_filter]
    apply List.filter_congr
    intro entry _
    simp only [matchesMeaning, hq]
  · intro query entry m₁ m₂ hm hsame
    have hempty : m₂ = "" ↔ m₁ = "" := by
      rw [← hlower m₂, ← hlower m₁, hsame]
    have htruthy : truthy (some m₂) = truthy (some m₁) := by
      rw [Bool.eq_iff_iff, truthy_some_iff, truthy_some_iff, ne_eq, ne_eq, hempty]
    simp only [matchesMeaning, hm, hsame, htruthy]

/-- C11 with ASCII lowercasing: "PATI" and "pati" select the same entries, and
an entry glossed "Patience" is selected by "pati" as the one glossed "patience". -/
theorem matchingKeywords_case_insensitive_witness :
    (∀ s, asciiLower s = "" ↔ s = "") ∧
      matchingKeywords asciiLower "PATI" [righteousness, patience]
        = matchingKeywords asciiLower "pati" [righteousness, patience] ∧
      matchesMeaning asciiLower "pati" { patience with meaning := some "Patience" }
        = matchesMeaning asciiLower "pati" patience :=
  ⟨asciiLower_eq_empty_iff,
    (matchingKeywords_case_insensitive asciiLower asciiLower_eq_empty_iff).1
      [righteousness, patience] "PATI" "pati" (by decide),
    (matchingKeywords_case_insensitive asciiLower asciiLower_eq_empty_iff).2
      "pati" patience "patience" "Patience" rfl (by decide)⟩

/-! ## C12: a failed load on a populated cache -/

/-- C14, as stated, fails: on the collection that holds an entry with the empty
gloss and the "patience" entry, the empty query returns the "patience" entry
alone, which is neither the whole collection nor the empty sequence. -/
theorem matchingKeywords_empty_query_neither_all_nor_none :
    matchingKeywords asciiLower "" [blank, patience] = [patience] ∧
      matchingKeywords asciiLower "" [blank, patience] ≠ [blank, patience] ∧
      matchingKeywords asciiLower "" [blank, patience] ≠ [] := by
  decide

/-- C14, amended: when lowercasing maps the empty string to itself, the empty
query returns, for every collection, exactly the entries whose `meaning` is a
non-empty string, in order; that is the whole collection when every entry has
such a `meaning`. -/
theorem matchingKeywords_empty_query (toLowerCase : String → String)
    (collection : List DictionaryEntry) (hlower : toLowerCase "" = "") :
    matchingKeywords toLowerCase "" collection
        = collection.filter (fun entry => decide (HasMeaning entry)) ∧
      ((∀ entry ∈ collection, HasMeaning entry) →
        matchingKeywords toLowerCase "" collection = collection) := by
  have hfilter : matchingKeywords toLowerCase "" collection
      = collection.filter (fun entry => decide (HasMeaning entry)) := by
    rw [matchingKeywords_eq_filter]
    apply List.filter_congr
    intro entry _
    rw [matchesMeaning_eq_decide]
    have hiff : (HasMeaning entry ∧ MeaningContains toLowerCase "" entry) ↔ HasMeaning entry := by
      constructor
      · exact fun h => h.1
      · rintro ⟨m, hm, hne⟩
        refine ⟨⟨m, hm, hne⟩, ⟨m, hm, ?_⟩⟩
        rw [hlower]
        exact List.nil_infix
    exact decide_eq_decide.mpr hiff
  refine ⟨hfilter, fun hall => ?_⟩
  rw [hfilter, List.filter_eq_self]
  intro entry hmem
  exact decide_eq_true (hall entry hmem)

/-- C14 amended, with ASCII lowercasing on the collection of scenario 1, where
every entry has a gloss: the empty query returns both entries. -/
theorem matchingKeywords_empty_query_witness :
    asciiLower "" = "" ∧
      matchingKeywords asciiLower "" [righteousness, patience] = [righteousness, patience] :=
  ⟨rfl, (matchingKeywords_empty_query asciiLower [righteousness, patience] rfl).2 (by decide)⟩

end QuranSearch

/-! # The callers' guard on empty input -/

namespace QuranSearch

theorem trimChars_eq_nil_iff (s : List Char) :
    trimChars s = [] ↔ ∀ c ∈ s, isWhiteSpace c = true := by
  unfold trimChars
  rw [List.reverse_eq_nil_iff, List.dropWhile_eq_nil_iff]
  constructor
  · intro h
    have hnil : s.dropWhile isWhiteSpace = [] := by
      cases hd : s.dropWhile isWhiteSpace with
      | nil => rfl
      | cons x rest =>
        have hx : isWhiteSpace x = true :=
          h x (by rw [hd]; exact List.mem_reverse.mpr (List.mem_cons_self x rest))
        have hnot := List.head_dropWhile_not isWhiteSpace s (by rw [hd]; exact List.cons_ne_nil x rest)
        simp [hd, hx] at hnot
    exact List.dropWhile_eq_nil_iff.mp hnil
  · intro h x hx
    have hnil : s.dropWhile isWhiteSpace = [] := List.dropWhile_eq_nil_iff.mpr h
    rw [hnil] at hx
    simp at hx

theorem trim_eq_empty_iff (s : String) :
    trim s = "" ↔ ∀ c ∈ s.data, isWhiteSpace c = true := by
  rw [← trimChars_eq_nil_iff]
  constructor
  · intro h
    exact congrArg String.data h
  · intro h
    exact String.ext h

/-- C13: when the input is empty or holds only white space (empty after
`trim`), the click handler of `quran_search.js` leaves the page as it is (it
does not call `displayAyahs`), `handleAnalysis` of `script.js` issues no
request and shows the error "Please enter a Hadith to analyze.", and the click
handler of `analysis.js` issues no request, leaves the results section alone
and raises its alert. -/
theorem blank_input_is_rejected (value : String)
    (hblank : ∀ c ∈ value.data, isWhiteSpace c = true) :
    (∀ (toLowerCase : String → String) (fetch : Fetch) (page : Page),
        searchButtonClick toLowerCase fetch value page = page) ∧
      (∀ (post : Script.Post) (display : String → Script.Payload → Option String)
          (buttonId : String) (page : Script.Page),
        Script.handleAnalysis post display buttonId value page
            = Script.showError "Please enter a Hadith to analyze." page ∧
          (Script.handleAnalysis post display buttonId value page).requests = page.requests ∧
          (Script.handleAnalysis post display buttonId value page).resultsSection
            = Script.View.error "Please enter a Hadith to analyze.") ∧
      (∀ (post : Analysis.Post) (page : Analysis.Page),
        (Analysis.analyzeButtonClick post value page).requests = page.requests ∧
          (Analysis.analyzeButtonClick post value page).resultsSection = page.resultsSection ∧
          (Analysis.analyzeButtonClick post value page).alerts
            = page.alerts ++ ["Please enter Hadith text to analyze."]) := by
  have htrim : trim value = "" := (trim_eq_empty_iff value).mpr hblank
  have hfalsy : truthy (some (trim value)) = false := by
    rw [htrim]
    rfl
  refine ⟨?_, ?_, ?_⟩
  · intro toLowerCase fetch page
    simp [searchButtonClick, hfalsy]
  · intro post display buttonId page
    have hrun : Script.handleAnalysis post display buttonId value page
        = Script.showError "Please enter a Hadith to analyze." page := by
      simp [Script.handleAnalysis, hfalsy]
    rw [hrun]
    exact ⟨rfl, rfl, rfl⟩
  · intro post page
    simp [Analysis.analyzeButtonClick, hfalsy]

/-- C13 at an input of two spaces, a tab and a line feed, on the start pages
and a network that would answer. -/
theorem blank_input_is_rejected_witness :
    (∀ c ∈ "  \t\n".data, isWhiteSpace c = true) ∧
      searchButtonClick asciiLower (okNet scenarioParts) "  \t\n" Page.start = Page.start ∧
      (Script.handleAnalysis (fun _ _ => Except.error "unreachable") (fun _ _ => none)
        "find-ayahs" "  \t\n" Script.Page.start).requests = [] :=
  ⟨by decide,
    (blank_input_is_rejected "  \t\n" (by decide)).1 asciiLower (okNet scenarioParts) Page.start,
    ((blank_input_is_rejected "  \t\n" (by decide)).2.1 (fun _ _ => Except.error "unreachable")
      (fun _ _ => none) "find-ayahs" Script.Page.start).2.1⟩

end QuranSearch

/-! # Interleaved searches (`quran_search.js`) -/

namespace QuranSearch

/-- The sequential `loadAllData` is its two halves run back to back. -/
theorem loadAllData_eq_halves (fetch : Fetch) (page : Page) :
    loadAllData fetch page = loadAllDataFinish fetch (loadAllDataBegin page) := by
  simp only [loadAllData, loadAllDataFinish, loadAllDataBegin]

/-- The sequential `displayAyahs` on an empty cache is the run "search, resume,
resume" of the interleaved model with nothing else in between. -/
theorem displayAyahs_eq_run (toLowerCase : String → String) (fetch : Fetch) (meaning : String)
    (page : Page) (hempty : page.allKeywordsData = []) :
    (run toLowerCase [Event.search fetch meaning, Event.resume 0, Event.resume 0]
        { page := page, pending := [] }).page
      = displayAyahs toLowerCase fetch meaning page := by
  simp [run, step, loadAllDataBegin, hempty, displayAyahs, loadAllData, loadAllDataFinish,
    displayAyahsFinish]

theorem loadAllDataFinish_of_succeeds (fetch : Fetch) (parts : String → List DictionaryEntry)
    (page : Page) (hall : AllSucceed fetch parts) :
    loadAllDataFinish fetch page
      = { page with allKeywordsData := (dictionaryFiles.map parts).flatten } := by
  have hp := promiseAll_map_ok (fun file => fetchPartition fetch file) parts dictionaryFiles
    (fun file hfile => fetchPartition_of_succeeds fetch parts hall file hfile)
  simp only [loadAllDataFinish, hp, flat_eq_flatten]

theorem displayAyahsFinish_cache (toLowerCase : String → String) (meaning : String)
    (page : Page) :
    (displayAyahsFinish toLowerCase meaning page).allKeywordsData = page.allKeywordsData ∧
      (displayAyahsFinish toLowerCase meaning page).requests = page.requests := by
  unfold displayAyahsFinish
  simp only
  split <;> exact ⟨rfl, rfl⟩

theorem loadAllDataBegin_requests (page : Page) : (loadAllDataBegin page).requests ≠ [] := by
  intro h
  have hlen := congrArg List.length h
  simp [loadAllDataBegin, dictionaryFiles] at hlen

/-- One event keeps the session consistent. -/
theorem step_consistent (toLowerCase : String → String)
    (parts : String → List DictionaryEntry) (event : Event) (session : Session)
    (hfetch : ∀ fetch, event.fetch? = some fetch → AllSucceed fetch parts)
    (hok : session.Consistent parts) : (step toLowerCase event session).Consistent parts := by
  obtain ⟨hpending, hcache⟩ := hok
  cases event with
  | preload fetch =>
    have hsucceeds : AllSucceed fetch parts := hfetch fetch rfl
    refine ⟨?_, ?_⟩
    · intro call hcall
      rcases List.mem_append.mp hcall with h | h
      · exact hpending call h
      · rw [List.mem_singleton.mp h]
        exact hsucceeds
    · rcases hcache with hfull | ⟨hempty, _⟩
      · exact Or.inl hfull
      · exact Or.inr ⟨hempty, Or.inr ⟨Pending.awaitingAll fetch none,
          List.mem_append_right _ (List.mem_singleton_self _), rfl⟩⟩
  | search fetch meaning =>
    have hsucceeds : AllSucceed fetch parts := hfetch fetch rfl
    by_cases hlen : session.page.allKeywordsData.length = 0
    · have hstep : step toLowerCase (Event.search fetch meaning) session
          = { page := loadAllDataBegin
                { session.page with resultsDisplayed := true, resultsSection := View.spinner },
              pending := session.pending ++ [Pending.awaitingAll fetch (some meaning)] } := by
        simp only [step, hlen, if_true]
      rw [hstep]
      refine ⟨?_, ?_⟩
      · intro call hcall
        rcases List.mem_append.mp hcall with h | h
        · exact hpending call h
        · rw [List.mem_singleton.mp h]
          exact hsucceeds
      · rcases hcache with hfull | ⟨hempty, _⟩
        · exact Or.inl hfull
        · exact Or.inr ⟨hempty, Or.inr ⟨Pending.awaitingAll fetch (some meaning),
            List.mem_append_right _ (List.mem_singleton_self _), rfl⟩⟩
    · have hstep : step toLowerCase (Event.search fetch meaning) session
          = { page := displayAyahsFinish toLowerCase meaning
                { session.page with resultsDisplayed := true, resultsSection := View.spinner },
              pending := session.pending } := by
        simp only [step, hlen, if_false]
      rw [hstep]
      refine ⟨hpending, ?_⟩
      have hsame := displayAyahsFinish_cache toLowerCase meaning
        { session.page with resultsDisplayed := true, resultsSection := View.spinner }
      rcases hcache with hfull | ⟨hempty, _⟩
      · exact Or.inl (hsame.1.trans hfull)
      · exact absurd (by rw [hempty]; rfl) hlen
  | resume k =>
    cases hget : session.pending.get? k with
    | none =>
      have hstep : step toLowerCase (Event.resume k) session = session := by
        simp only [step, hget]
      rw [hstep]
      exact ⟨hpending, hcache⟩
    | some call =>
      have hmem : call ∈ session.pending := List.get?_mem hget
      cases call with
      | awaitingAll fetch caller =>
        have hsucceeds : AllSucceed fetch parts := hpending _ hmem
        cases caller with
        | none =>
          have hstep : step toLowerCase (Event.resume k) session
              = { page := loadAllDataFinish fetch session.page,
                  pending := session.pending.eraseIdx k } := by
            simp only [step, hget]
          rw [hstep]
          refine ⟨fun c hc => hpending c (List.mem_of_mem_eraseIdx hc), Or.inl ?_⟩
          rw [loadAllDataFinish_of_succeeds fetch parts _ hsucceeds]
        | some meaning =>
          have hstep : step toLowerCase (Event.resume k) session
              = { page := loadAllDataFinish fetch session.page,
                  pending := session.pending.set k (Pending.awaitingLoad meaning) } := by
            simp only [step, hget]
          rw [hstep]
          refine ⟨?_, Or.inl ?_⟩
          · intro c hc
            rcases List.mem_or_eq_of_mem_set hc with h | h
            · exact hpending c h
            · rw [h]
              exact True.intro
          · rw [loadAllDataFinish_of_succeeds fetch parts _ hsucceeds]
      | awaitingLoad meaning =>
        have hstep : step toLowerCase (Event.resume k) session
            = { page := displayAyahsFinish toLowerCase meaning session.page,
                pending := session.pending.eraseIdx k } := by
          simp only [step, hget]
        rw [hstep]
        have hsame := displayAyahsFinish_cache toLowerCase meaning session.page
        refine ⟨fun c hc => hpending c (List.mem_of_mem_eraseIdx hc), ?_⟩
        rcases hcache with hfull | ⟨hempty, hwhy⟩
        · exact Or.inl (hsame.1.trans hfull)
        · refine Or.inr ⟨hsame.1.trans hempty, ?_⟩
          rcases hwhy with hnone | ⟨loading, hloading, hflag⟩
          · exact Or.inl (hsame.2.trans hnone)
          · refine Or.inr ⟨loading, ?_, hflag⟩
            obtain ⟨i, hi⟩ := List.mem_iff_getElem?.mp hloading
            rw [List.mem_eraseIdx_iff_getElem?]
            refine ⟨i, ?_, hi⟩
            intro hik
            rw [hik, ← List.get?_eq_getElem?, hget] at hi
            simp only [Option.some.injEq] at hi
            rw [← hi] at hflag
            exact absurd hflag (by simp [Pending.isLoading])

/-- Once a load was started or the cache holds entries, that stays so. -/
theorem step_started (toLowerCase : String → String)
    (parts : String → List DictionaryEntry) (event : Event) (session : Session)
    (hok : session.Consistent parts)
    (hstarted : session.Started ∨ event.fetch?.isSome = true) :
    (step toLowerCase event session).Started := by
  by_cases hrequests : (step toLowerCase event session).page.requests ≠ []
  · exact Or.inl hrequests
  · have hnil : (step toLowerCase event session).page.requests = [] := by
      by_contra h
      exact hrequests h
    right
    cases event with
    | preload fetch => exact absurd hnil (loadAllDataBegin_requests _)
    | search fetch meaning =>
      by_cases hlen : session.page.allKeywordsData.length = 0
      · have hstep : (step toLowerCase (Event.search fetch meaning) session).page
            = loadAllDataBegin
                { session.page with resultsDisplayed := true, resultsSection := View.spinner } := by
          simp only [step, hlen, if_true]
        rw [hstep] at hnil
        exact absurd hnil (loadAllDataBegin_requests _)
      · have hstep : (step toLowerCase (Event.search fetch meaning) session).page
            = displayAyahsFinish toLowerCase meaning
                { session.page with resultsDisplayed := true, resultsSection := View.spinner } := by
          simp only [step, hlen, if_false]
        rw [hstep, (displayAyahsFinish_cache toLowerCase meaning _).1]
        intro hempty
        exact hlen (by rw [show session.page.allKeywordsData = [] from hempty]; rfl)
    | resume k =>
      have hwas : session.Started := by
        rcases hstarted with h | h
        · exact h
        · exact absurd h (by simp [Event.fetch?])
      have hrequestsSame : (step toLowerCase (Event.resume k) session).page.requests
          = session.page.requests := by
        simp only [step]
        split
        · rfl
        · simp only [loadAllDataFinish]
          split <;> rfl
        · simp only [loadAllDataFinish]
          split <;> rfl
        · exact (displayAyahsFinish_cache toLowerCase _ session.page).2
      rw [hrequestsSame] at hnil
      have hcacheWas : session.page.allKeywordsData ≠ [] := by
        rcases hwas with h | h
        · exact absurd hnil h
        · exact h
      have hfullWas : session.page.allKeywordsData = (dictionaryFiles.map parts).flatten := by
        rcases hok.2 with h | ⟨h, _⟩
        · exact h
        · exact absurd h hcacheWas
      have hcases : (step toLowerCase (Event.resume k) session).page.allKeywordsData
          = (dictionaryFiles.map parts).flatten
            ∨ (step toLowerCase (Event.resume k) session).page.allKeywordsData
              = session.page.allKeywordsData := by
        simp only [step]
        split
        · exact Or.inr rfl
        · rename_i fetch hget
          exact Or.inl (by
            rw [loadAllDataFinish_of_succeeds fetch parts _ (hok.1 _ (List.get?_mem hget))])
        · rename_i fetch meaning hget
          exact Or.inl (by
            rw [loadAllDataFinish_of_succeeds fetch parts _ (hok.1 _ (List.get?_mem hget))])
        · exact Or.inr (displayAyahsFinish_cache toLowerCase _ session.page).1
      rcases hcases with hc | hc
      · rw [hc, ← hfullWas]
        exact hcacheWas
      · rw [hc]
        exact hcacheWas

theorem run_consistent (toLowerCase : String → String)
    (parts : String → List DictionaryEntry) (events : List Event) (session : Session)
    (hfetch : ∀ event ∈ events, ∀ fetch, event.fetch? = some fetch → AllSucceed fetch parts)
    (hok : session.Consistent parts) :
    (run toLowerCase events session).Consistent parts ∧
      ((session.Started ∨ ∃ event ∈ events, event.fetch?.isSome = true) →
        (run toLowerCase events session).Started) := by
  induction events generalizing session with
  | nil =>
    refine ⟨hok, fun h => ?_⟩
    rcases h with h | ⟨event, hmem, _⟩
    · exact h
    · exact absurd hmem (List.not_mem_nil event)
  | cons event rest ih =>
    have hnext := step_consistent toLowerCase parts event session
      (hfetch event (List.mem_cons_self event rest)) hok
    have hrest := ih (step toLowerCase event session)
      (fun e he => hfetch e (List.mem_cons_of_mem event he)) hnext
    refine ⟨hrest.1, fun h => hrest.2 ?_⟩
    rcases h with h | ⟨starter, hmem, hstarter⟩
    · exact Or.inl (step_started toLowerCase parts event session hok (Or.inl h))
    · rcases List.mem_cons.mp hmem with heq | htail
      · subst heq
        exact Or.inl (step_started toLowerCase parts starter session hok (Or.inr hstarter))
      · exact Or.inr ⟨starter, htail, hstarter⟩

/-- C15: from the start of the script, let calls of `displayAyahs` and the
script's own `loadAllData` start and go on in any interleaving, every load
being answered with the partitions `parts`.  The cache is never partial: at
the end of every such run it is empty or the concatenation of the partitions
taken once.  When a call was started and all calls have settled, it is that
concatenation. -/
theorem interleaved_searches_settle (toLowerCase : String → String)
    (parts : String → List DictionaryEntry) (events : List Event)
    (hfetch : ∀ event ∈ events, ∀ fetch, event.fetch? = some fetch → AllSucceed fetch parts) :
    ((run toLowerCase events Session.start).page.allKeywordsData = [] ∨
        (run toLowerCase events Session.start).page.allKeywordsData
          = (dictionaryFiles.map parts).flatten) ∧
      ((∃ event ∈ events, event.fetch?.isSome = true) →
        (run toLowerCase events Session.start).pending = [] →
        (run toLowerCase events Session.start).page.allKeywordsData
          = (dictionaryFiles.map parts).flatten) := by
  have hstart : Session.start.Consistent parts :=
    ⟨fun call hcall => absurd hcall (List.not_mem_nil call), Or.inr ⟨rfl, Or.inl rfl⟩⟩
  obtain ⟨hok, hstarted⟩ := run_consistent toLowerCase parts events Session.start hfetch hstart
  constructor
  · rcases hok.2 with h | ⟨h, _⟩
    · exact Or.inr h
    · exact Or.inl h
  · intro hsome hsettled
    rcases hok.2 with h | ⟨hempty, hwhy⟩
    · exact h
    · have hwas := hstarted (Or.inr hsome)
      rcases hwhy with hnone | ⟨call, hcall, _⟩
      · rcases hwas with hr | hc
        · exact absurd hnone hr
        · exact absurd hempty hc
      · rw [hsettled] at hcall
        exact absurd hcall (List.not_mem_nil call)

/-- C15 on scenario 1: two searches and the preload are started before any
load has completed, then the five continuations run in a mixed order; the
cache ends as the two entries, once each, and nothing is left suspended. -/
theorem interleaved_searches_settle_witness :
    (∀ event ∈ [Event.search (okNet scenarioParts) "pati", Event.preload (okNet scenarioParts),
          Event.search (okNet scenarioParts) "right", Event.resume 2, Event.resume 0,
          Event.resume 1, Event.resume 1, Event.resume 0],
        ∀ fetch, event.fetch? = some fetch → AllSucceed fetch scenarioParts) ∧
      (run asciiLower
        [Event.search (okNet scenarioParts) "pati", Event.preload (okNet scenarioParts),
          Event.search (okNet scenarioParts) "right", Event.resume 2, Event.resume 0,
          Event.resume 1, Event.resume 1, Event.resume 0] Session.start).pending.length = 0 ∧
      (run asciiLower
        [Event.search (okNet scenarioParts) "pati", Event.preload (okNet scenarioParts),
          Event.search (okNet scenarioParts) "right", Event.resume 2, Event.resume 0,
          Event.resume 1, Event.resume 1, Event.resume 0] Session.start).page.allKeywordsData
        = [righteousness, patience] := by
  have hfetch : ∀ event ∈ [Event.search (okNet scenarioParts) "pati",
        Event.preload (okNet scenarioParts), Event.search (okNet scenarioParts) "right",
        Event.resume 2, Event.resume 0, Event.resume 1, Event.resume 1, Event.resume 0],
      ∀ fetch, event.fetch? = some fetch → AllSucceed fetch scenarioParts := by
    intro event hmem fetch hf
    simp only [List.mem_cons, List.mem_singleton, List.not_mem_nil, or_false] at hmem
    rcases hmem with h | h | h | h | h | h | h | h <;> subst h <;>
      simp only [Event.fetch?, Option.some.injEq] at hf <;>
      first
        | (subst hf; exact allSucceed_okNet scenarioParts)
        | exact absurd hf (by simp)
  have hsettled : (run asciiLower
        [Event.search (okNet scenarioParts) "pati", Event.preload (okNet scenarioParts),
          Event.search (okNet scenarioParts) "right", Event.resume 2, Event.resume 0,
          Event.resume 1, Event.resume 1, Event.resume 0] Session.start).pending.length = 0 := by
    decide
  exact ⟨hfetch, hsettled,
    ((interleaved_searches_settle asciiLower scenarioParts _ hfetch).2
      ⟨Event.preload (okNet scenarioParts), by simp, rfl⟩
      (List.length_eq_zero.mp hsettled)).trans (by decide)⟩

end QuranSearch

/-! # `convertMarkdownHighlights` -/

namespace Script

open QuranSearch (truthy truthy_some_iff)

theorem matchLazyGroup_shorter (text group after : List Char)
    (hmatch : matchLazyGroup text = some (group, after)) : after.length < text.length := by
  induction text generalizing group after with
  | nil => simp [matchLazyGroup] at hmatch
  | cons c rest ih =>
    unfold matchLazyGroup at hmatch
    split at hmatch
    · cases rest with
      | nil =>
        rename_i hstar
        simp at hstar
      | cons d tail =>
        simp only [List.tail_cons, Option.some.injEq, Prod.mk.injEq] at hmatch
        rw [← hmatch.2]
        simp only [List.length_cons]
        omega
    · split at hmatch
      · exact absurd hmatch (by simp)
      · cases hrest : matchLazyGroup rest with
        | none => simp [hrest] at hmatch
        | some found =>
          obtain ⟨g, a⟩ := found
          simp only [hrest, Option.some.injEq, Prod.mk.injEq] at hmatch
          have hlt := ih g a hrest
          rw [← hmatch.2]
          simp only [List.length_cons]
          omega

theorem matchHighlight_shorter (text group after : List Char)
    (hmatch : matchHighlight text = some (group, after)) : after.length < text.length := by
  unfold matchHighlight at hmatch
  split at hmatch
  · rename_i rest
    have hlt := matchLazyGroup_shorter rest group after hmatch
    simp only [List.length_cons]
    omega
  · exact absurd hmatch (by simp)

/-- More fuel than the length of the text changes nothing. -/
theorem replaceHighlights_fuel (fuel₁ fuel₂ : Nat) (text : List Char)
    (h₁ : text.length ≤ fuel₁) (h₂ : text.length ≤ fuel₂) :
    replaceHighlights fuel₁ text = replaceHighlights fuel₂ text := by
  induction fuel₁ generalizing fuel₂ text with
  | zero =>
    have hnil : text = [] := List.length_eq_zero.mp (Nat.le_zero.mp h₁)
    subst hnil
    cases fuel₂ <;> rfl
  | succ n ih =>
    cases text with
    | nil => cases fuel₂ <;> rfl
    | cons c rest =>
      cases fuel₂ with
      | zero => simp at h₂
      | succ m =>
        simp only [List.length_cons, Nat.add_le_add_iff_right] at h₁ h₂
        simp only [replaceHighlights]
        cases hm : matchHighlight (c :: rest) with
        | none =>
          simp only
          rw [ih m rest h₁ h₂]
        | some found =>
          obtain ⟨group, after⟩ := found
          have hlt := matchHighlight_shorter (c :: rest) group after hm
          simp only [List.length_cons] at hlt
          simp only
          rw [ih m after (by omega) (by omega)]

theorem matchHighlight_of_not_star (c : Char) (rest : List Char) (hc : c ≠ '*') :
    matchHighlight (c :: rest) = none := by
  unfold matchHighlight
  split
  · rename_i heq
    simp only [List.cons.injEq] at heq
    exact absurd heq.1 hc
  · rfl

theorem matchHighlight_of_no_pair (text : List Char) (hfree : ¬ ['*', '*'] <+: text) :
    matchHighlight text = none := by
  unfold matchHighlight
  split
  · rename_i rest
    exact absurd (List.prefix_append ['*', '*'] rest) hfree
  · rfl

/-- A text without `**` is left as it is, whatever the fuel. -/
theorem replaceHighlights_of_no_pair (fuel : Nat) (text : List Char)
    (hfree : ¬ ['*', '*'] <:+: text) : replaceHighlights fuel text = text := by
  induction fuel generalizing text with
  | zero => rfl
  | succ n ih =>
    cases text with
    | nil => rfl
    | cons c rest =>
      have hnone : matchHighlight (c :: rest) = none :=
        matchHighlight_of_no_pair (c :: rest) (fun hp => hfree hp.isInfix)
      have hrest : ¬ ['*', '*'] <:+: rest :=
        fun hi => hfree (hi.trans (List.suffix_cons c rest).isInfix)
      simp only [replaceHighlights, hnone, ih rest hrest]

theorem no_pair_of_no_star (text : List Char) (hplain : ∀ c ∈ text, c ≠ '*') :
    ¬ ['*', '*'] <:+: text := by
  intro hi
  have hmem : '*' ∈ text := hi.subset (List.mem_cons_self '*' ['*'])
  exact hplain '*' hmem rfl

theorem replaceHighlights_append_plain (before rest : List Char) (fuel : Nat)
    (hplain : ∀ c ∈ before, c ≠ '*') :
    replaceHighlights (before.length + fuel) (before ++ rest)
      = before ++ replaceHighlights fuel rest := by
  induction before with
  | nil => simp
  | cons c tail ih =>
    have hc : c ≠ '*' := hplain c (List.mem_cons_self c tail)
    have htail : ∀ d ∈ tail, d ≠ '*' := fun d hd => hplain d (List.mem_cons_of_mem c hd)
    have hfuel : (c :: tail).length + fuel = (tail.length + fuel) + 1 := by
      simp only [List.length_cons]
      omega
    rw [hfuel, List.cons_append]
    simp only [replaceHighlights, matchHighlight_of_not_star c (tail ++ rest) hc, ih htail,
      List.cons_append]

theorem matchLazyGroup_plain (word after : List Char)
    (hword : ∀ c ∈ word, c ≠ '*' ∧ isLineTerminator c = false) :
    matchLazyGroup (word ++ '*' :: '*' :: after) = some (word, after) := by
  induction word with
  | nil => simp [matchLazyGroup]
  | cons c tail ih =>
    have hc := hword c (List.mem_cons_self c tail)
    have htail := ih (fun d hd => hword d (List.mem_cons_of_mem c hd))
    rw [List.cons_append]
    unfold matchLazyGroup
    simp [hc.1, hc.2, htail]

theorem replaceHighlights_one_highlight (before word after : List Char)
    (hbefore : ∀ c ∈ before, c ≠ '*')
    (hword : ∀ c ∈ word, c ≠ '*' ∧ isLineTerminator c = false)
    (hafter : ∀ c ∈ after, c ≠ '*') :
    replaceHighlights (before ++ '*' :: '*' :: (word ++ '*' :: '*' :: after)).length
        (before ++ '*' :: '*' :: (word ++ '*' :: '*' :: after))
      = before ++ ("<span class=\"highlighted-word\">".data ++ word ++ "</span>".data ++ after) := by
  have hlen : (before ++ '*' :: '*' :: (word ++ '*' :: '*' :: after)).length
      = before.length + ((word.length + after.length + 3) + 1) := by
    simp only [List.length_append, List.length_cons]
    omega
  rw [hlen, replaceHighlights_append_plain before _ _ hbefore]
  have hmatch : matchHighlight ('*' :: '*' :: (word ++ '*' :: '*' :: after))
      = some (word, after) := by
    show matchLazyGroup (word ++ '*' :: '*' :: after) = some (word, after)
    exact matchLazyGroup_plain word after hword
  simp only [replaceHighlights, hmatch,
    replaceHighlights_of_no_pair _ after (no_pair_of_no_star after hafter)]

/-- C19: for strings `a`, `w`, `b` without `*` and without line terminators,
`convertMarkdownHighlights(a + "**" + w + "**" + b)` is `a`, then `w` wrapped in
the `highlighted-word` span, then `b`; a text that contains no `**` is
returned unchanged; an absent or empty text is returned as it is. -/
theorem convertMarkdownHighlights_spec :
    (∀ a w b : String,
        (∀ c ∈ a.data, c ≠ '*' ∧ isLineTerminator c = false) →
        (∀ c ∈ w.data, c ≠ '*' ∧ isLineTerminator c = false) →
        (∀ c ∈ b.data, c ≠ '*' ∧ isLineTerminator c = false) →
        convertMarkdownHighlights (some (a ++ "**" ++ w ++ "**" ++ b))
          = some (a ++ "<span class=\"highlighted-word\">" ++ w ++ "</span>" ++ b)) ∧
      (∀ t : String, ¬ "**".data <:+: t.data →
        convertMarkdownHighlights (some t) = some t) ∧
      convertMarkdownHighlights none = none ∧
      convertMarkdownHighlights (some "") = some "" := by
  refine ⟨?_, ?_, rfl, rfl⟩
  · intro a w b ha hw hb
    have htruthy : truthy (some (a ++ "**" ++ w ++ "**" ++ b)) = true := by
      rw [truthy_some_iff]
      intro hempty
      have hdata := congrArg String.data hempty
      simp [String.data_append] at hdata
    have hdata : (a ++ "**" ++ w ++ "**" ++ b).data
        = a.data ++ '*' :: '*' :: (w.data ++ '*' :: '*' :: b.data) := by
      simp [String.data_append]
    simp only [convertMarkdownHighlights, htruthy, Bool.not_true, Bool.false_eq_true, if_false,
      hdata]
    rw [replaceHighlights_one_highlight a.data w.data b.data (fun c hc => (ha c hc).1) hw
      (fun c hc => (hb c hc).1)]
    congr 1
    apply String.ext
    simp [String.data_append]
  · intro t hfree
    simp only [convertMarkdownHighlights]
    split
    · rfl
    · rw [replaceHighlights_of_no_pair _ t.data hfree]

/-- C19 on "the **mercy** of God", and on a text without `**`. -/
theorem convertMarkdownHighlights_spec_witness :
    convertMarkdownHighlights (some ("the " ++ "**" ++ "mercy" ++ "**" ++ " of God"))
        = some ("the " ++ "<span class=\"highlighted-word\">" ++ "mercy" ++ "</span>"
            ++ " of God") ∧
      convertMarkdownHighlights (some "2 * 3 = 6") = some "2 * 3 = 6" :=
  ⟨convertMarkdownHighlights_spec.1 "the " "mercy" " of God" (by decide) (by decide) (by decide),
    convertMarkdownHighlights_spec.2.1 "2 * 3 = 6" (by decide)⟩

end Script

/-! # Pagination of the manual results (`analysis.js`) -/

namespace Analysis

open QuranSearch (DictionaryEntry isWhiteSpace)

/-! ## Numbers as text -/

/-- The decimal digit characters. -/
theorem digitChar_facts (d : Nat) (hd : d < 10) :
    (Nat.digitChar d).isDigit = true ∧ isWhiteSpace (Nat.digitChar d) = false ∧
      (Nat.digitChar d).toNat - 48 = d ∧ Nat.digitChar d ≠ '-' ∧ Nat.digitChar d ≠ '+' ∧
      Nat.digitChar d ≠ ' ' := by
  revert d
  decide

theorem toDigitsCore_digits (fuel n : Nat) (acc : List Char)
    (hacc : ∀ c ∈ acc, ∃ d, d < 10 ∧ c = Nat.digitChar d) :
    ∀ c ∈ Nat.toDigitsCore 10 fuel n acc, ∃ d, d < 10 ∧ c = Nat.digitChar d := by
  induction fuel generalizing n acc with
  | zero => exact hacc
  | succ k ih =>
    have hnext : ∀ c ∈ Nat.digitChar (n % 10) :: acc, ∃ d, d < 10 ∧ c = Nat.digitChar d := by
      intro c hc
      rcases List.mem_cons.mp hc with h | h
      · exact ⟨n % 10, Nat.mod_lt n (by decide), h⟩
      · exact hacc c h
    simp only [Nat.toDigitsCore]
    split
    · exact hnext
    · exact ih (n / 10) _ hnext

theorem toDigitsCore_ne_nil (fuel n : Nat) (acc : List Char) (hacc : acc ≠ [] ∨ 0 < fuel) :
    Nat.toDigitsCore 10 fuel n acc ≠ [] := by
  induction fuel generalizing n acc with
  | zero =>
    rcases hacc with h | h
    · exact h
    · exact absurd h (Nat.lt_irrefl 0)
  | succ k ih =>
    simp only [Nat.toDigitsCore]
    split
    · exact List.cons_ne_nil _ _
    · exact ih (n / 10) _ (Or.inl (List.cons_ne_nil _ _))

theorem digitsValue_toDigitsCore (fuel n : Nat) (acc : List Char) (hfuel : n < fuel) :
    (Nat.toDigitsCore 10 fuel n acc).foldl (fun value c => value * 10 + (c.toNat - 48)) 0
      = acc.foldl (fun value c => value * 10 + (c.toNat - 48)) n := by
  induction fuel generalizing n acc with
  | zero => exact absurd hfuel (Nat.not_lt_zero n)
  | succ k ih =>
    have hdigit := (digitChar_facts (n % 10) (Nat.mod_lt n (by decide))).2.2.1
    simp only [Nat.toDigitsCore]
    split
    · rename_i hzero
      simp only [List.foldl_cons, hdigit]
      have : n % 10 = n := by omega
      rw [Nat.zero_mul, Nat.zero_add, this]
    · rename_i hpos
      rw [ih (n / 10) _ (by omega)]
      simp only [List.foldl_cons, hdigit]
      have : n / 10 * 10 + n % 10 = n := by omega
      rw [this]

theorem digitsValue_toDigits (n : Nat) : digitsValue (Nat.toDigits 10 n) = n := by
  unfold digitsValue Nat.toDigits
  rw [digitsValue_toDigitsCore (n + 1) n [] (Nat.lt_succ_self n)]
  rfl

theorem toDigits_digits (n : Nat) :
    ∀ c ∈ Nat.toDigits 10 n, ∃ d, d < 10 ∧ c = Nat.digitChar d :=
  toDigitsCore_digits (n + 1) n [] (fun c hc => absurd hc (List.not_mem_nil c))

theorem toDigits_ne_nil (n : Nat) : Nat.toDigits 10 n ≠ [] :=
  toDigitsCore_ne_nil (n + 1) n [] (Or.inr (Nat.succ_pos n))

theorem beforeSeparator_digits (digits rest : List Char)
    (hdigits : ∀ c ∈ digits, ∃ d, d < 10 ∧ c = Nat.digitChar d) :
    beforeSeparator " / ".data (digits ++ (" / ".data ++ rest)) = digits := by
  induction digits with
  | nil =>
    show beforeSeparator " / ".data (' ' :: '/' :: ' ' :: rest) = []
    simp [beforeSeparator, List.isPrefixOf]
  | cons c tail ih =>
    obtain ⟨d, hd, hc⟩ := hdigits c (List.mem_cons_self c tail)
    have hnot : c ≠ ' ' := by
      rw [hc]
      exact (digitChar_facts d hd).2.2.2.2.2
    have htail := ih (fun x hx => hdigits x (List.mem_cons_of_mem c hx))
    have hprefix : List.isPrefixOf " / ".data (c :: (tail ++ (" / ".data ++ rest))) = false := by
      show List.isPrefixOf (' ' :: '/' :: ' ' :: []) (c :: (tail ++ (" / ".data ++ rest))) = false
      simp [List.isPrefixOf, Ne.symm hnot]
    rw [List.cons_append, beforeSeparator, hprefix, htail]
    rfl

theorem parseInt_digits (digits : List Char) (hne : digits ≠ [])
    (hdigits : ∀ c ∈ digits, ∃ d, d < 10 ∧ c = Nat.digitChar d) :
    parseInt ⟨digits⟩ = some (Int.ofNat (digitsValue digits)) := by
  have hall : ∀ c ∈ digits, c.isDigit = true := by
    intro c hc
    obtain ⟨d, hd, hcd⟩ := hdigits c hc
    rw [hcd]
    exact (digitChar_facts d hd).1
  cases digits with
  | nil => exact absurd rfl hne
  | cons c tail =>
    obtain ⟨d, hd, hc⟩ := hdigits c (List.mem_cons_self c tail)
    have hfacts := digitChar_facts d hd
    rw [← hc] at hfacts
    have htake : (c :: tail).takeWhile Char.isDigit = c :: tail :=
      List.takeWhile_eq_self_iff.mpr hall
    have hdrop : (c :: tail).dropWhile isWhiteSpace = c :: tail := by
      simp [List.dropWhile_cons, hfacts.2.1]
    have hminus : ((c :: tail).head? == some '-') = false := by
      simp [hfacts.2.2.2.1]
    have hsign : (match c :: tail with
        | '-' :: rest => rest
        | '+' :: rest => rest
        | other => other) = c :: tail := by
      split
      · rename_i heq
        simp only [List.cons.injEq] at heq
        exact absurd heq.1 hfacts.2.2.2.1
      · rename_i heq
        simp only [List.cons.injEq] at heq
        exact absurd heq.1 hfacts.2.2.2.2.1
      · rfl
    unfold parseInt
    simp only [hdrop, hminus, hsign, htake]
    simp

/-- The index written into the page info is read back by `changeManualResult`. -/
theorem parseInt_pageInfo (i n : Nat) :
    parseInt (String.mk (beforeSeparator " / ".data (controlsAt i n).pageInfo.data))
      = some (Int.ofNat (i + 1)) := by
  have hdata : (controlsAt i n).pageInfo.data
      = Nat.toDigits 10 (i + 1) ++ (" / ".data ++ Nat.toDigits 10 n) := by
    simp [controlsAt, numberToString, String.data_append]
  rw [hdata, beforeSeparator_digits _ _ (toDigits_digits (i + 1)),
    parseInt_digits _ (toDigits_ne_nil (i + 1)) (toDigits_digits (i + 1)),
    digitsValue_toDigits]

/-! ## One step of the pagination -/

theorem controlsAt_of_int (i n : Nat) :
    ({ pageInfo := numberToString (Int.ofNat i + 1) ++ " / " ++ numberToString (Int.ofNat n),
       prevDisabled := Int.ofNat i == 0,
       nextDisabled := Int.ofNat i == Int.ofNat n - 1 } : Controls) = controlsAt i n := by
  have hprev : (Int.ofNat i == 0) = (i == 0) := by
    rw [Bool.eq_iff_iff]
    simp only [beq_iff_eq, Int.ofNat_eq_coe]
    omega
  have hnext : (Int.ofNat i == Int.ofNat n - 1) = (i + 1 == n) := by
    rw [Bool.eq_iff_iff]
    simp only [beq_iff_eq, Int.ofNat_eq_coe]
    omega
  rw [hprev, hnext]
  rfl

theorem changeManualResult_at (data : List (String × List DictionaryEntry))
    (manual : List ManualItem) (position i next : Nat) (resultId keyword : String)
    (shown result : DictionaryEntry) (results : List DictionaryEntry) (direction : Int)
    (hitem : manual.get? position
      = some (ManualItem.result resultId keyword shown (some (controlsAt i results.length))))
    (hfind : findContainer resultId manual = some position)
    (hlookup : data.lookup keyword = some results)
    (hnext : Int.ofNat (i + 1) - 1 + direction = Int.ofNat next)
    (hresult : results.get? next = some result) :
    changeManualResult data resultId direction keyword manual
      = some (manual.set position
          (ManualItem.result resultId keyword result (some (controlsAt next results.length)))) := by
  have hnonneg : ¬ (Int.ofNat next < 0) := by
    simp only [Int.ofNat_eq_coe]
    omega
  have hparse : parseInt
      { data := beforeSeparator [' ', '/', ' '] (controlsAt i results.length).pageInfo.data }
        = some (Int.ofNat (i + 1)) := parseInt_pageInfo i results.length
  have htoNat : (Int.ofNat next).toNat = next := rfl
  simp only [changeManualResult, hfind, hitem, hparse, hlookup, hnext, hnonneg,
    if_false, htoNat, hresult, controlsAt_of_int]

theorem itemShows_render (entry : String × List DictionaryEntry) :
    ItemShows entry (renderManualItem entry.1 entry.2) := by
  obtain ⟨keyword, results⟩ := entry
  cases results with
  | nil => exact Or.inl ⟨rfl, rfl⟩
  | cons first rest =>
    refine Or.inr ⟨0, first, rfl, ?_⟩
    simp only [renderManualItem]
    congr 1
    split
    · rename_i hlen
      congr 1
      have hnext : ((0 : Nat) + 1 == (first :: rest).length) = false := by
        simp only [beq_eq_false_iff_ne, ne_eq]
        omega
      simp only [controlsAt, hnext]
      congr 1
    · rfl

theorem forall₂_get_right {α β : Type} (R : α → β → Prop) (xs : List α) (ys : List β)
    (hall : List.Forall₂ R xs ys) (p : Nat) (y : β) (hy : ys.get? p = some y) :
    ∃ x, xs.get? p = some x ∧ R x y := by
  induction hall generalizing p with
  | nil => simp at hy
  | cons hhead _ ih =>
    cases p with
    | zero =>
      simp only [List.get?_cons_zero, Option.some.injEq] at hy
      subst hy
      exact ⟨_, rfl, hhead⟩
    | succ q =>
      simp only [List.get?_cons_succ] at hy
      obtain ⟨x, hx, hr⟩ := ih q hy
      exact ⟨x, by simpa using hx, hr⟩

theorem forall₂_set_right {α β : Type} (R : α → β → Prop) (xs : List α) (ys : List β)
    (hall : List.Forall₂ R xs ys) (p : Nat) (x : α) (y : β) (hx : xs.get? p = some x)
    (hr : R x y) : List.Forall₂ R xs (ys.set p y) := by
  induction hall generalizing p with
  | nil => exact List.Forall₂.nil
  | cons hhead htail ih =>
    cases p with
    | zero =>
      simp only [List.get?_cons_zero, Option.some.injEq] at hx
      subst hx
      exact List.Forall₂.cons hr htail
    | succ q =>
      simp only [List.get?_cons_succ] at hx
      exact List.Forall₂.cons hhead (ih q hx)

theorem lookup_of_nodup (data : List (String × List DictionaryEntry))
    (hkeys : (data.map (fun entry => entry.1)).Nodup) (p : Nat)
    (entry : String × List DictionaryEntry) (hentry : data.get? p = some entry) :
    data.lookup entry.1 = some entry.2 := by
  induction data generalizing p with
  | nil => simp at hentry
  | cons first rest ih =>
    obtain ⟨key, value⟩ := first
    cases p with
    | zero =>
      simp only [List.get?_cons_zero, Option.some.injEq] at hentry
      subst hentry
      simp [List.lookup]
    | succ q =>
      simp only [List.get?_cons_succ] at hentry
      simp only [List.map_cons, List.nodup_cons] at hkeys
      have hmem : entry.1 ∈ rest.map (fun e => e.1) :=
        List.mem_map.mpr ⟨entry, List.get?_mem hentry, rfl⟩
      have hne : entry.1 ≠ key := fun h => hkeys.1 (h ▸ hmem)
      have hbeq : (entry.1 == key) = false := by
        simpa using hne
      simp only [List.lookup, hbeq]
      exact ih hkeys.2 q hentry

theorem findContainer_of_nodup (data : List (String × List DictionaryEntry))
    (manual : List ManualItem) (hall : List.Forall₂ ItemShows data manual)
    (hids : (data.map (fun entry => resultIdOf entry.1)).Nodup) (p : Nat)
    (entry : String × List DictionaryEntry) (hentry : data.get? p = some entry)
    (keyword : String) (shown : DictionaryEntry) (controls : Option Controls)
    (hitem : manual.get? p
      = some (ManualItem.result (resultIdOf entry.1) keyword shown controls)) :
    findContainer (resultIdOf entry.1) manual = some p := by
  induction hall generalizing p with
  | nil => simp at hitem
  | @cons first item rest items hhead _ ih =>
    cases p with
    | zero =>
      simp only [List.get?_cons_zero, Option.some.injEq] at hitem
      subst hitem
      simp [findContainer]
    | succ q =>
      simp only [List.get?_cons_succ] at hitem hentry
      simp only [List.map_cons, List.nodup_cons] at hids
      have hrest := ih hids.2 q hentry hitem
      have hmem : resultIdOf entry.1 ∈ rest.map (fun e => resultIdOf e.1) :=
        List.mem_map.mpr ⟨entry, List.get?_mem hentry, rfl⟩
      rcases hhead with ⟨_, hnone⟩ | ⟨i, result, _, hsome⟩
      · subst hnone
        simp [findContainer, hrest]
      · subst hsome
        have hne : resultIdOf first.1 ≠ resultIdOf entry.1 := fun h => hids.1 (h ▸ hmem)
        simp [findContainer, hne, hrest]

/-- When the result ids of the keywords are pairwise different, a click keeps
every item of the block showing a result of its own keyword at an index in
range with the controls of that index, and it does not throw. -/
theorem click_keeps_items (data : List (String × List DictionaryEntry))
    (hids : (data.map (fun entry => resultIdOf entry.1)).Nodup)
    (manual : List ManualItem) (hall : List.Forall₂ ItemShows data manual)
    (position : Nat) (button : Button) :
    ∃ next, click data position button manual = some next ∧
      List.Forall₂ ItemShows data next := by
  have hkeys : (data.map (fun entry => entry.1)).Nodup := by
    have hcomp : data.map (fun entry => resultIdOf entry.1)
        = (data.map (fun entry => entry.1)).map resultIdOf := by
      rw [List.map_map]
      rfl
    rw [hcomp] at hids
    exact List.Nodup.of_map resultIdOf hids
  unfold click
  split
  · rename_i resultId keyword shown controls hitem
    obtain ⟨entry, hentry, hshows⟩ := forall₂_get_right ItemShows data manual hall position _ hitem
    rcases hshows with ⟨_, hnone⟩ | ⟨i, result, hresult, hsome⟩
    · exact absurd hnone (by simp)
    · simp only [ManualItem.result.injEq] at hsome
      obtain ⟨hid, hkeyword, hshown, hcontrols⟩ := hsome
      by_cases hlen : entry.2.length > 1
      · simp only [hlen, if_true, Option.some.injEq] at hcontrols
        subst hid hkeyword hshown hcontrols
        have hlookup := lookup_of_nodup data hkeys position entry hentry
        have hfind := findContainer_of_nodup data manual hall hids position entry hentry
          entry.1 shown (some (controlsAt i entry.2.length)) hitem
        have hi : i < entry.2.length := by
          have := List.get?_eq_some.mp hresult
          exact this.1
        cases button with
        | prev =>
          by_cases hzero : i = 0
          · have hdisabled : (controlsAt i entry.2.length).prevDisabled = true := by
              simp [controlsAt, hzero]
            simp only [hdisabled, if_true]
            exact ⟨manual, rfl, hall⟩
          · have henabled : (controlsAt i entry.2.length).prevDisabled = false := by
              simp [controlsAt, hzero]
            obtain ⟨previous, hprevious⟩ : ∃ r, entry.2.get? (i - 1) = some r :=
              ⟨entry.2.get ⟨i - 1, by omega⟩, List.get?_eq_get (by omega)⟩
            have hstep := changeManualResult_at data manual position i (i - 1)
              (resultIdOf entry.1) entry.1 shown previous entry.2 (-1) hitem hfind hlookup
              (by simp only [Int.ofNat_eq_coe]; omega) hprevious
            simp only [henabled, Bool.false_eq_true, if_false, Button.direction, hstep]
            refine ⟨_, rfl, forall₂_set_right ItemShows data manual hall position entry _ hentry ?_⟩
            exact Or.inr ⟨i - 1, previous, hprevious, by simp [hlen]⟩
        | next =>
          by_cases hlast : i + 1 = entry.2.length
          · have hdisabled : (controlsAt i entry.2.length).nextDisabled = true := by
              simp [controlsAt, hlast]
            simp only [hdisabled, if_true]
            exact ⟨manual, rfl, hall⟩
          · have henabled : (controlsAt i entry.2.length).nextDisabled = false := by
              simp [controlsAt, hlast]
            obtain ⟨following, hfollowing⟩ : ∃ r, entry.2.get? (i + 1) = some r :=
              ⟨entry.2.get ⟨i + 1, by omega⟩, List.get?_eq_get (by omega)⟩
            have hstep := changeManualResult_at data manual position i (i + 1)
              (resultIdOf entry.1) entry.1 shown following entry.2 1 hitem hfind hlookup
              (by simp only [Int.ofNat_eq_coe]; omega) hfollowing
            simp only [henabled, Bool.false_eq_true, if_false, Button.direction, hstep]
            refine ⟨_, rfl, forall₂_set_right ItemShows data manual hall position entry _ hentry ?_⟩
            exact Or.inr ⟨i + 1, following, hfollowing, by simp [hlen]⟩
      · simp only [hlen, if_false] at hcontrols
        exact absurd hcontrols (by simp)
  · exact ⟨manual, rfl, hall⟩

/-- What holds of C16: when the result ids of the keywords are pairwise
different, after any run of clicks from the initial render every keyword with
results shows one of its results at an index `i` in range, its page info reads
`i+1 / n`, Prev is disabled exactly when `i = 0` and Next exactly when
`i = n-1`; no click throws. -/
theorem clicks_keep_items (data : List (String × List DictionaryEntry))
    (hids : (data.map (fun entry => resultIdOf entry.1)).Nodup)
    (steps : List (Nat × Button)) :
    ∃ manual, clicks data steps (renderManualResults data) = some manual ∧
      List.Forall₂ ItemShows data manual := by
  have hstart : List.Forall₂ ItemShows data (renderManualResults data) := by
    unfold renderManualResults
    rw [List.forall₂_map_right_iff]
    exact List.forall₂_same.mpr (fun entry _ => itemShows_render entry)
  generalize renderManualResults data = manual at hstart
  induction steps generalizing manual with
  | nil => exact ⟨manual, rfl, hstart⟩
  | cons step rest ih =>
    obtain ⟨position, button⟩ := step
    obtain ⟨next, hnext, hshows⟩ := click_keeps_items data hids manual hstart position button
    obtain ⟨final, hfinal, hfinalShows⟩ := ih next hshows
    exact ⟨final, by simp only [clicks, hnext, hfinal], hfinalShows⟩

/-- C16 at the failing input.  The keywords "good deed" (three results) and
"good-deed" (two results) get the same result id.  One click on the enabled
Next of the second keyword rewrites the container and the controls of the
first keyword, which then reads "2 / 2" for a keyword with three results,
while the controls clicked stay at "1 / 2" with Next enabled.  A second click
on that Next reads `results[2]` of a two-element array and throws. -/
theorem pagination_collision_reads_out_of_range :
    resultIdOf "good deed" = resultIdOf "good-deed" ∧
      clicks collidingResults [(1, Button.next)] (renderManualResults collidingResults)
        = some
            [ ManualItem.result "manual-result-good-deed" "good deed" (sampleResult "b2")
                (some { pageInfo := "2 / 2", prevDisabled := false, nextDisabled := true }),
              ManualItem.result "manual-result-good-deed" "good-deed" (sampleResult "b1")
                (some { pageInfo := "1 / 2", prevDisabled := true, nextDisabled := false }) ] ∧
      clicks collidingResults [(1, Button.next), (1, Button.next)]
        (renderManualResults collidingResults) = none := by
  decide

/-- The run of C16 on keywords with different result ids: Next twice on the
first keyword reaches "3 / 3" with Next disabled, a third Next changes nothing. -/
theorem clicks_keep_items_sample :
    clicks distinctResults [(0, Button.next), (0, Button.next), (0, Button.next)]
        (renderManualResults distinctResults)
      = some
          [ ManualItem.result "manual-result-good-deed" "good deed" (sampleResult "a3")
              (some { pageInfo := "3 / 3", prevDisabled := false, nextDisabled := true }),
            ManualItem.result "manual-result-patience" "patience" (sampleResult "b1")
              (some { pageInfo := "1 / 2", prevDisabled := true, nextDisabled := false }),
            ManualItem.noResults "mercy" ] := by
  decide

end Analysis

/-! # The keywords page -/

namespace Keywords

open QuranSearch (includes truthy trimChars includes_iff truthy_some_iff)

/-! ## `processAndFormatKeyword` -/

theorem not_lower_of_upper (c : Char) (hc : isAsciiUpper c = true) : isAsciiLower c = false := by
  simp only [isAsciiUpper, isAsciiLower, Bool.and_eq_true, decide_eq_true_eq,
    Bool.and_eq_false_imp, decide_eq_false_iff_not] at hc ⊢
  omega

/-- The equations of the scan of `/([a-z])([A-Z])/g`: after a pair the scan goes
on behind the pair. -/
theorem spaceCamelCase_pair (a b : Char) (rest : List Char) :
    spaceCamelCase (a :: b :: rest)
      = if isAsciiLower a && isAsciiUpper b then a :: ' ' :: b :: spaceCamelCase rest
        else a :: spaceCamelCase (b :: rest) := by
  by_cases hab : (isAsciiLower a && isAsciiUpper b) = true
  · have hb : isAsciiUpper b = true := ((Bool.and_eq_true _ _).mp hab).2
    simp [spaceCamelCase, hab, not_lower_of_upper b hb]
  · simp [spaceCamelCase, hab]

theorem spaceCamelCase_head (text : List Char) :
    (spaceCamelCase text).head? = text.head? := by
  cases text with
  | nil => rfl
  | cons a tail =>
    simp only [spaceCamelCase]
    split <;> rfl

theorem noCamelCase_iff_chain (text : List Char) :
    NoCamelCase text
      ↔ List.Chain' (fun x y => ¬ (isAsciiLower x = true ∧ isAsciiUpper y = true)) text := by
  constructor
  · intro h
    induction text with
    | nil => exact List.chain'_nil
    | cons a tail ih =>
      have htail : NoCamelCase tail :=
        fun x y hxy => h x y (hxy.trans (List.suffix_cons a tail).isInfix)
      rw [List.chain'_cons']
      refine ⟨fun y hy => ?_, ih htail⟩
      cases tail with
      | nil => simp at hy
      | cons b rest =>
        simp only [List.head?_cons, Option.mem_def, Option.some.injEq] at hy
        subst hy
        exact h a b (List.prefix_append [a, b] rest).isInfix
  · intro h x y hxy
    have hpair := List.Chain'.infix h hxy
    exact List.chain'_pair.mp hpair

theorem chain_spaceCamelCase (text : List Char) :
    List.Chain' (fun x y => ¬ (isAsciiLower x = true ∧ isAsciiUpper y = true))
      (spaceCamelCase text) := by
  induction text with
  | nil => exact List.chain'_nil
  | cons a tail ih =>
    simp only [spaceCamelCase]
    split
    · rename_i hpair
      rw [List.chain'_cons', List.chain'_cons']
      refine ⟨?_, ?_, ih⟩
      · intro y hy
        simp only [List.head?_cons, Option.mem_def, Option.some.injEq] at hy
        subst hy
        intro hc
        exact absurd hc.2 (by decide)
      · intro y _ hc
        exact absurd hc.1 (by decide)
    · rename_i hpair
      rw [List.chain'_cons']
      refine ⟨?_, ih⟩
      intro y hy hc
      rw [spaceCamelCase_head] at hy
      apply hpair
      simp only [Option.mem_def] at hy
      simp [hy, hc.1, hc.2]

theorem spacesInserted_refl (part : List Char) : SpacesInserted part part :=
  ⟨List.Sublist.refl part, rfl⟩

theorem spacesInserted_trans (a b c : List Char) (hab : SpacesInserted a b)
    (hbc : SpacesInserted b c) : SpacesInserted a c :=
  ⟨hab.1.trans hbc.1, hbc.2.trans hab.2⟩

theorem spacesInserted_spaceCamelCase (part : List Char) :
    SpacesInserted part (spaceCamelCase part) := by
  induction part with
  | nil => exact spacesInserted_refl []
  | cons a tail ih =>
    simp only [spaceCamelCase]
    split
    · refine ⟨(ih.1.cons ' ').cons₂ a, ?_⟩
      simp only [List.filter_cons, bne_self_eq_false, Bool.false_eq_true, if_false, ih.2]
    · refine ⟨ih.1.cons₂ a, ?_⟩
      simp only [List.filter_cons, ih.2]

theorem chain_correctPart (part : List Char) :
    List.Chain' (fun x y => ¬ (isAsciiLower x = true ∧ isAsciiUpper y = true))
      (correctPart part) := by
  unfold correctPart
  simp only
  split
  · rw [List.chain'_append]
    refine ⟨?_, ?_, ?_⟩
    · rw [← noCamelCase_iff_chain]
      intro x y hxy
      have hmem : y ∈ "make ".data := hxy.subset (by simp)
      intro hc
      have hnone : ∀ c ∈ "make ".data, isAsciiUpper c = false := by decide
      rw [hnone y hmem] at hc
      exact absurd hc.2 (by simp)
    · exact List.Chain'.infix (chain_spaceCamelCase part) (List.drop_suffix 4 _).isInfix
    · intro x hx y _ hc
      have hx' : x = ' ' := by
        have : "make ".data.getLast? = some ' ' := by decide
        rw [this] at hx
        simpa using hx.symm
      subst hx'
      exact absurd hc.1 (by decide)
  · exact chain_spaceCamelCase part

theorem spacesInserted_correctPart (part : List Char) :
    SpacesInserted part (correctPart part) := by
  unfold correctPart
  simp only
  split
  · rename_i hmake
    apply spacesInserted_trans part (spaceCamelCase part) _ (spacesInserted_spaceCamelCase part)
    simp only [Bool.and_eq_true, List.isPrefixOf_iff_prefix] at hmake
    obtain ⟨rest, hrest⟩ := hmake.1.1
    rw [← hrest]
    have hdrop : ("make".data ++ rest).drop 4 = rest := by
      simp [List.drop_append]
    rw [hdrop]
    refine ⟨?_, ?_⟩
    · show List.Sublist ("make".data ++ rest) ("make".data ++ ' ' :: rest)
      exact List.Sublist.append_left (List.sublist_cons_self ' ' rest) _
    · show (("make".data ++ ' ' :: rest).filter (fun c => c != ' '))
          = ("make".data ++ rest).filter (fun c => c != ' ')
      simp [List.filter_append, List.filter_cons]
  · exact spacesInserted_spaceCamelCase part

theorem chain_joinWith (parts : List (List Char))
    (hparts : ∀ part ∈ parts,
      List.Chain' (fun x y => ¬ (isAsciiLower x = true ∧ isAsciiUpper y = true)) part) :
    List.Chain' (fun x y => ¬ (isAsciiLower x = true ∧ isAsciiUpper y = true))
      (joinWith ", ".data parts) := by
  induction parts with
  | nil => exact List.chain'_nil
  | cons part rest ih =>
    cases rest with
    | nil => exact hparts part (List.mem_cons_self part [])
    | cons next more =>
      have hrest := ih (fun p hp => hparts p (List.mem_cons_of_mem part hp))
      show List.Chain' _ (part ++ ", ".data ++ joinWith ", ".data (next :: more))
      rw [List.append_assoc, List.chain'_append]
      refine ⟨hparts part (List.mem_cons_self part _), ?_, ?_⟩
      · show List.Chain' _ (',' :: ' ' :: joinWith ", ".data (next :: more))
        rw [List.chain'_cons', List.chain'_cons']
        refine ⟨?_, ?_, hrest⟩
        · intro y hy hc
          simp only [List.head?_cons, Option.mem_def, Option.some.injEq] at hy
          subst hy
          exact absurd hc.2 (by decide)
        · intro y _ hc
          exact absurd hc.1 (by decide)
      · intro x _ y hy hc
        have hy' : y = ',' := by
          simpa using hy.symm
        subst hy'
        exact absurd hc.2 (by decide)

/-- C18: `processAndFormatKeyword` puts a space before any capital letter that
follows a lowercase letter.  For every keyword the output holds no lowercase
ASCII letter immediately followed by an uppercase ASCII letter, and the output
is the corrected parts joined by ", ", each corrected part being the
comma-separated, trimmed part of the input with spaces inserted: removing the
spaces that were put in gives the part back. -/
theorem processAndFormatKeyword_spec (keyword : String) :
    NoCamelCase (processAndFormatKeyword keyword).data ∧
      ∃ corrected : List (List Char),
        (processAndFormatKeyword keyword).data = joinWith ", ".data corrected ∧
          List.Forall₂ SpacesInserted ((splitOn ',' keyword.data).map trimChars) corrected := by
  by_cases hkeyword : truthy (some keyword) = true
  · have hout : (processAndFormatKeyword keyword).data
        = joinWith ", ".data (((splitOn ',' keyword.data).map trimChars).map correctPart) := by
      simp [processAndFormatKeyword, hkeyword]
    refine ⟨?_, _, hout, ?_⟩
    · rw [hout, noCamelCase_iff_chain]
      apply chain_joinWith
      intro part hpart
      obtain ⟨source, _, hsource⟩ := List.mem_map.mp hpart
      rw [← hsource]
      exact chain_correctPart source
    · rw [List.forall₂_map_right_iff]
      exact List.forall₂_same.mpr (fun part _ => spacesInserted_correctPart part)
  · have hempty : keyword = "" := by
      by_contra hne
      exact hkeyword ((truthy_some_iff keyword).mpr hne)
    subst hempty
    refine ⟨?_, [[]], rfl, ?_⟩
    · intro x y hxy
      have hnil : [x, y] = [] := List.eq_nil_of_infix_nil hxy
      exact absurd hnil (by simp)
    · exact List.Forall₂.cons (spacesInserted_refl []) List.Forall₂.nil

/-- C18 on "makePeace, goodDeed": the output is "make Peace, good Deed". -/
theorem processAndFormatKeyword_spec_witness :
    NoCamelCase (processAndFormatKeyword "makePeace, goodDeed").data ∧
      processAndFormatKeyword "makePeace, goodDeed" = "make Peace, good Deed" :=
  ⟨(processAndFormatKeyword_spec "makePeace, goodDeed").1, by decide⟩

/-! ## `getFilteredKeywords` -/

theorem filterMap_get_aligned (keywords : List String) (indices : List Nat)
    (hsorted : indices.Pairwise (fun a b => a < b)) (j : Nat) (keyword : String)
    (hj : (indices.filterMap (fun index => keywords.get? index)).get? j = some keyword) :
    ∃ i, indices.get? j = some i ∧ keywords.get? i = some keyword := by
  induction indices generalizing j with
  | nil => simp at hj
  | cons first rest ih =>
    have hrest := (List.pairwise_cons.mp hsorted).2
    have hfirst := (List.pairwise_cons.mp hsorted).1
    cases hget : keywords.get? first with
    | some x =>
      rw [List.filterMap_cons_some hget] at hj
      cases j with
      | zero =>
        simp only [List.get?_cons_zero, Option.some.injEq] at hj
        exact ⟨first, rfl, by rw [hget, hj]⟩
      | succ n =>
        simp only [List.get?_cons_succ] at hj
        obtain ⟨i, hi, hk⟩ := ih hrest n hj
        exact ⟨i, by simpa using hi, hk⟩
    | none =>
      have hnone : rest.filterMap (fun index => keywords.get? index) = [] := by
        rw [List.filterMap_eq_nil_iff]
        intro index hindex
        have hlen : keywords.length ≤ first := by
          simpa using hget
        have hlt := hfirst index hindex
        simp only [List.get?_eq_getElem?, List.getElem?_eq_none_iff]
        omega
      rw [List.filterMap_cons_none hget, hnone] at hj
      simp at hj

theorem guardedMatch_spec (toLowerCase : String → String) (searchLower : String)
    (keywords : List String) (i : Nat)
    (hmatch : guardedMatch toLowerCase searchLower keywords i = true) :
    ∃ keyword, keywords.get? i = some keyword ∧
      searchLower.data <:+: (toLowerCase keyword).data := by
  unfold guardedMatch at hmatch
  split at hmatch
  · exact absurd hmatch (by simp)
  · rename_i keyword hget
    simp only [Bool.and_eq_true] at hmatch
    exact ⟨keyword, hget, (includes_iff _ _).mp hmatch.2⟩

theorem matchingIndices_spec (toLowerCase : String → String) (searchQuery : String)
    (english arabic urdu : List String) :
    ∃ indices,
      matchingIndices toLowerCase searchQuery
          { english := some english, arabic := some arabic, urdu := some urdu } = some indices ∧
        indices.Pairwise (fun a b => a < b) ∧
        ∀ i ∈ indices, ∃ keyword,
          (english.get? i = some keyword ∨ arabic.get? i = some keyword
              ∨ urdu.get? i = some keyword) ∧
            (toLowerCase searchQuery).data <:+: (toLowerCase keyword).data := by
  unfold matchingIndices
  simp only
  split
  · exact ⟨[], rfl, List.Pairwise.nil, fun i hi => absurd hi (List.not_mem_nil i)⟩
  · refine ⟨_, rfl, List.Pairwise.filter _ (List.pairwise_lt_range _), ?_⟩
    intro i hi
    have hmatch := (List.mem_filter.mp hi).2
    simp only [Bool.or_eq_true] at hmatch
    rcases hmatch with (h | h) | h
    · obtain ⟨keyword, hk, hsub⟩ := guardedMatch_spec toLowerCase _ english i h
      exact ⟨keyword, Or.inl hk, hsub⟩
    · obtain ⟨keyword, hk, hsub⟩ := guardedMatch_spec toLowerCase _ arabic i h
      exact ⟨keyword, Or.inr (Or.inl hk), hsub⟩
    · obtain ⟨keyword, hk, hsub⟩ := guardedMatch_spec toLowerCase _ urdu i h
      exact ⟨keyword, Or.inr (Or.inr hk), hsub⟩

/-- C17: with the three arrays present, the filter 'all' and a non-empty search
query, `getFilteredKeywords` returns three lists that are aligned.  There is
an increasing list of original indices such that, in each language, the
keyword at position `j` of the returned list is the keyword of that language
at the `j`-th index of the list; and at every index of the list the keyword of
at least one language contains the query, both lowercased. -/
theorem getFilteredKeywords_aligned (toLowerCase : String → String) (page : Page)
    (english arabic urdu : List String)
    (hdata : page.allKeywords
      = { english := some english, arabic := some arabic, urdu := some urdu })
    (hfilter : page.currentFilter = Filter.all) (hquery : page.searchQuery ≠ "") :
    ∃ (indices : List Nat) (filteredEnglish filteredArabic filteredUrdu : List String),
      getFilteredKeywords toLowerCase page
          = some { english := some filteredEnglish, arabic := some filteredArabic,
                   urdu := some filteredUrdu } ∧
        indices.Pairwise (fun a b => a < b) ∧
        (∀ j keyword, filteredEnglish.get? j = some keyword →
          ∃ i, indices.get? j = some i ∧ english.get? i = some keyword) ∧
        (∀ j keyword, filteredArabic.get? j = some keyword →
          ∃ i, indices.get? j = some i ∧ arabic.get? i = some keyword) ∧
        (∀ j keyword, filteredUrdu.get? j = some keyword →
          ∃ i, indices.get? j = some i ∧ urdu.get? i = some keyword) ∧
        ∀ i ∈ indices, ∃ keyword,
          (english.get? i = some keyword ∨ arabic.get? i = some keyword
              ∨ urdu.get? i = some keyword) ∧
            (toLowerCase page.searchQuery).data <:+: (toLowerCase keyword).data := by
  obtain ⟨indices, hindices, hsorted, hmatch⟩ :=
    matchingIndices_spec toLowerCase page.searchQuery english arabic urdu
  have htruthy : truthy (some page.searchQuery) = true := (truthy_some_iff _).mpr hquery
  refine ⟨indices, indices.filterMap (fun index => english.get? index),
    indices.filterMap (fun index => arabic.get? index),
    indices.filterMap (fun index => urdu.get? index), ?_, hsorted,
    fun j keyword hj => filterMap_get_aligned english indices hsorted j keyword hj,
    fun j keyword hj => filterMap_get_aligned arabic indices hsorted j keyword hj,
    fun j keyword hj => filterMap_get_aligned urdu indices hsorted j keyword hj, hmatch⟩
  simp only [getFilteredKeywords, htruthy, if_true, hdata, hindices, hfilter,
    applyLanguageFilter, selectRows]

/-- C17 on `sampleKeywords` with the query "p": rows 1 and 2 match, the Arabic
list has no row 2 and comes back one keyword shorter. -/
theorem getFilteredKeywords_aligned_witness :
    (samplePage "p").allKeywords
        = { english := some ["Mercy", "Prayer", "makePatience"],
            arabic := some ["رحمة", "صلاة"],
            urdu := some ["رحمت", "نماز", "صبر (sabr)"] } ∧
      (samplePage "p").currentFilter = Filter.all ∧
      (samplePage "p").searchQuery ≠ "" ∧
      ∃ (indices : List Nat) (filteredEnglish filteredArabic filteredUrdu : List String),
        getFilteredKeywords QuranSearch.asciiLower (samplePage "p")
            = some { english := some filteredEnglish, arabic := some filteredArabic,
                     urdu := some filteredUrdu } ∧
          indices.Pairwise (fun a b => a < b) ∧
          (∀ j keyword, filteredEnglish.get? j = some keyword →
            ∃ i, indices.get? j = some i ∧
              ["Mercy", "Prayer", "makePatience"].get? i = some keyword) ∧
          (∀ j keyword, filteredArabic.get? j = some keyword →
            ∃ i, indices.get? j = some i ∧ ["رحمة", "صلاة"].get? i = some keyword) ∧
          (∀ j keyword, filteredUrdu.get? j = some keyword →
            ∃ i, indices.get? j = some i ∧
              ["رحمت", "نماز", "صبر (sabr)"].get? i = some keyword) ∧
          ∀ i ∈ indices, ∃ keyword,
            (["Mercy", "Prayer", "makePatience"].get? i = some keyword
                ∨ ["رحمة", "صلاة"].get? i = some keyword
                ∨ ["رحمت", "نماز", "صبر (sabr)"].get? i = some keyword) ∧
              (QuranSearch.asciiLower (samplePage "p").searchQuery).data
                <:+: (QuranSearch.asciiLower keyword).data :=
  ⟨rfl, rfl, by decide,
    getFilteredKeywords_aligned QuranSearch.asciiLower (samplePage "p") _ _ _ rfl rfl
      (by decide)⟩

/-- The lists `getFilteredKeywords` returns on `sampleKeywords` for "p". -/
theorem getFilteredKeywords_sample :
    getFilteredKeywords QuranSearch.asciiLower (samplePage "p")
      = some { english := some ["Prayer", "makePatience"], arabic := some ["صلاة"],
               urdu := some ["نماز", "صبر (sabr)"] } := by
  decide

/-! ## `loadKeywords` -/

theorem highlightSearchTerm_of_safe (regExpValid : String → Bool) (text searchTerm : String)
    (hsafe : searchTerm = "" ∨ regExpValid ("(" ++ searchTerm ++ ")") = true) :
    ∃ shown, highlightSearchTerm regExpValid text searchTerm = some shown := by
  unfold highlightSearchTerm
  split
  · exact ⟨_, rfl⟩
  · rename_i htruthy
    rcases hsafe with hempty | hvalid
    · subst hempty
      exact absurd rfl htruthy
    · exact ⟨Highlighted.marked text searchTerm, by simp [hvalid]⟩

theorem renderCell_of_safe (regExpValid : String → Bool) (searchQuery keyword : String)
    (hsafe : searchQuery = "" ∨ regExpValid ("(" ++ searchQuery ++ ")") = true) :
    ∃ cell, renderCell regExpValid searchQuery keyword = some cell := by
  unfold renderCell
  split
  · obtain ⟨shown, hshown⟩ :=
      highlightSearchTerm_of_safe regExpValid (processAndFormatKeyword keyword) searchQuery hsafe
    exact ⟨some shown, by rw [hshown]⟩
  · exact ⟨none, rfl⟩

theorem createKeywordRow_of_safe (regExpValid : String → Bool) (searchQuery : String)
    (rowData : RowData)
    (hsafe : searchQuery = "" ∨ regExpValid ("(" ++ searchQuery ++ ")") = true) :
    ∃ row, createKeywordRow regExpValid searchQuery rowData = some row := by
  obtain ⟨e, he⟩ := renderCell_of_safe regExpValid searchQuery rowData.english hsafe
  obtain ⟨a, ha⟩ := renderCell_of_safe regExpValid searchQuery rowData.arabic hsafe
  obtain ⟨u, hu⟩ := renderCell_of_safe regExpValid searchQuery rowData.urdu hsafe
  exact ⟨{ rowData := rowData, englishCell := e, arabicCell := a, urduCell := u },
    by simp only [createKeywordRow, he, ha, hu]⟩

theorem createKeywordRows_of_safe (regExpValid : String → Bool) (searchQuery : String)
    (rowsData : List RowData)
    (hsafe : searchQuery = "" ∨ regExpValid ("(" ++ searchQuery ++ ")") = true) :
    (createKeywordRows regExpValid searchQuery rowsData).2 = false := by
  induction rowsData with
  | nil => rfl
  | cons rowData rest ih =>
    obtain ⟨row, hrow⟩ := createKeywordRow_of_safe regExpValid searchQuery rowData hsafe
    simp only [createKeywordRows, hrow]
    exact ih

theorem getFilteredKeywords_congr (toLowerCase : String → String) (p q : Page)
    (hdata : p.allKeywords = q.allKeywords) (hfilter : p.currentFilter = q.currentFilter)
    (hquery : p.searchQuery = q.searchQuery) :
    getFilteredKeywords toLowerCase p = getFilteredKeywords toLowerCase q := by
  simp only [getFilteredKeywords, hdata, hfilter, hquery]

theorem getFilteredKeywords_of_arrays (toLowerCase : String → String) (page : Page)
    (english arabic urdu : List String)
    (hdata : page.allKeywords
      = { english := some english, arabic := some arabic, urdu := some urdu }) :
    ∃ filtered, getFilteredKeywords toLowerCase page = some filtered := by
  obtain ⟨indices, hindices, _, _⟩ :=
    matchingIndices_spec toLowerCase page.searchQuery english arabic urdu
  unfold getFilteredKeywords
  simp only [hdata, hindices]
  split <;> exact ⟨_, rfl⟩

theorem matchingRows_of_arrays (toLowerCase : String → String) (searchQuery : String)
    (english arabic urdu : List String) :
    ∃ rows, matchingRows toLowerCase searchQuery
      { english := some english, arabic := some arabic, urdu := some urdu } = some rows := by
  unfold matchingRows
  simp only
  split <;> exact ⟨_, rfl⟩

/-- With the three arrays present and a search query that is empty or compiles,
`displayKeywords` does not throw: it shows the grid and touches neither the
spinner, nor the error message, nor the statistics, nor the globals. -/
theorem displayKeywords_of_arrays (toLowerCase : String → String)
    (regExpValid : String → Bool) (page : Page) (english arabic urdu : List String)
    (hdata : page.allKeywords
      = { english := some english, arabic := some arabic, urdu := some urdu })
    (hsafe : page.searchQuery = "" ∨ regExpValid ("(" ++ page.searchQuery ++ ")") = true) :
    ∃ shown, displayKeywords toLowerCase regExpValid page = (shown, none) ∧
      shown.keywordsGridShown = true ∧
      shown.errorMessageShown = page.errorMessageShown ∧
      shown.loadingSpinnerShown = page.loadingSpinnerShown ∧
      shown.allKeywords = page.allKeywords ∧
      shown.totalKeywords = page.totalKeywords ∧
      shown.englishCount = page.englishCount ∧
      shown.arabicCount = page.arabicCount ∧
      shown.urduCount = page.urduCount ∧
      shown.consoleErrors = page.consoleErrors := by
  obtain ⟨filtered, hfiltered⟩ :=
    getFilteredKeywords_of_arrays toLowerCase page english arabic urdu hdata
  obtain ⟨matching, hmatching⟩ :=
    matchingRows_of_arrays toLowerCase page.searchQuery english arabic urdu
  have hvisible : ∀ q : Page, q.allKeywords = page.allKeywords →
      q.currentFilter = page.currentFilter → q.searchQuery = page.searchQuery →
      updateVisibleCount toLowerCase q
        = some { q with
            visibleCount := lengthOrZero filtered.english + lengthOrZero filtered.arabic
              + lengthOrZero filtered.urdu } := by
    intro q h1 h2 h3
    simp only [updateVisibleCount, getFilteredKeywords_congr toLowerCase q page h1 h2 h3,
      hfiltered]
  unfold displayKeywords
  simp only [hfiltered]
  split
  · have hthrew := createKeywordRows_of_safe regExpValid page.searchQuery matching hsafe
    simp only [hdata, hmatching]
    cases hrows : createKeywordRows regExpValid page.searchQuery matching with
    | mk rows threw =>
      rw [hrows] at hthrew
      simp only at hthrew
      subst hthrew
      simp only [Bool.false_eq_true, if_false]
      rw [hvisible]
      · refine ⟨_, rfl, ?_⟩
        simp only [showKeywordsGrid, hdata, and_self]
      · exact hdata.symm
      · rfl
      · rfl
  · have hthrew := createKeywordRows_of_safe regExpValid page.searchQuery (plainRows filtered) hsafe
    cases hrows : createKeywordRows regExpValid page.searchQuery (plainRows filtered) with
    | mk rows threw =>
      rw [hrows] at hthrew
      simp only at hthrew
      subst hthrew
      simp only [Bool.false_eq_true, if_false]
      rw [hvisible]
      · exact ⟨_, rfl, rfl, rfl, rfl, rfl, rfl, rfl, rfl, rfl, rfl⟩
      · rfl
      · rfl
      · rfl

/-- What holds of C20: on a successful response, `loadKeywords` ends in the
error state without running `updateStats` or `displayKeywords` when one of the
three properties is missing, and ends in the displayed state without error
when the three are present and the search query is empty or compiles. -/
theorem loadKeywords_validates (toLowerCase : String → String) (regExpValid : String → Bool)
    (response : Response) (data : KeywordsData) (page : Page)
    (hok : response.ok = true) (hjson : response.json = Except.ok data) :
    ((data.english = none ∨ data.arabic = none ∨ data.urdu = none) →
        (loadKeywords toLowerCase regExpValid (Except.ok response) page).errorMessageShown = true ∧
        (loadKeywords toLowerCase regExpValid (Except.ok response) page).keywordsGridShown = false ∧
        (loadKeywords toLowerCase regExpValid (Except.ok response) page).loadingSpinnerShown
          = false ∧
        (loadKeywords toLowerCase regExpValid (Except.ok response) page).rows = page.rows ∧
        (loadKeywords toLowerCase regExpValid (Except.ok response) page).totalKeywords
          = page.totalKeywords ∧
        (loadKeywords toLowerCase regExpValid (Except.ok response) page).visibleCount
          = page.visibleCount) ∧
      (∀ english arabic urdu,
        data = { english := some english, arabic := some arabic, urdu := some urdu } →
        (page.searchQuery = "" ∨ regExpValid ("(" ++ page.searchQuery ++ ")") = true) →
        (loadKeywords toLowerCase regExpValid (Except.ok response) page).errorMessageShown
          = false ∧
        (loadKeywords toLowerCase regExpValid (Except.ok response) page).keywordsGridShown = true ∧
        (loadKeywords toLowerCase regExpValid (Except.ok response) page).loadingSpinnerShown
          = false ∧
        (loadKeywords toLowerCase regExpValid (Except.ok response) page).allKeywords = data ∧
        (loadKeywords toLowerCase regExpValid (Except.ok response) page).totalKeywords
          = english.length ∧
        (loadKeywords toLowerCase regExpValid (Except.ok response) page).consoleErrors
          = page.consoleErrors) := by
  constructor
  · intro hmissing
    have hcheck : (data.english.isNone || data.arabic.isNone || data.urdu.isNone) = true := by
      rcases hmissing with h | h | h <;> simp [h]
    simp only [loadKeywords, hok, hjson, hcheck, Bool.not_true, Bool.false_eq_true, if_false,
      if_true]
    exact ⟨rfl, rfl, rfl, rfl, rfl, rfl⟩
  · intro english arabic urdu hdata hsafe
    subst hdata
    obtain ⟨shown, hshown, hgrid, herror, hspinner, hall, htotal, _, _, _, hconsole⟩ :=
      displayKeywords_of_arrays toLowerCase regExpValid
        (updateStats
          { hideError (showLoading page) with
            allKeywords := { english := some english, arabic := some arabic, urdu := some urdu } })
        english arabic urdu rfl hsafe
    simp only [loadKeywords, hok, hjson, Bool.not_true, Bool.false_eq_true, if_false,
      Option.isNone_some, Bool.or_self, hshown]
    exact ⟨herror, hgrid, rfl, hall, htotal, hconsole⟩

/-- C20 at the failing input: the page holds the search query "(" and the
response carries the three lists of `sampleKeywords`, one keyword of which
contains "(".  `loadKeywords` ends with the error message shown and the grid
hidden, although the response has the three properties. -/
theorem loadKeywords_valid_response_ends_in_error :
    sampleKeywords.english.isSome = true ∧ sampleKeywords.arabic.isSome = true ∧
      sampleKeywords.urdu.isSome = true ∧
      (loadKeywords QuranSearch.asciiLower balancedParentheses (okResponse sampleKeywords)
        (samplePage "(")).errorMessageShown = true ∧
      (loadKeywords QuranSearch.asciiLower balancedParentheses (okResponse sampleKeywords)
        (samplePage "(")).keywordsGridShown = false := by
  decide

/-- The same response on the start page, where the search query is empty, ends
in the displayed state. -/
theorem loadKeywords_first_load_displays :
    (loadKeywords QuranSearch.asciiLower balancedParentheses (okResponse sampleKeywords)
        Page.start).errorMessageShown = false ∧
      (loadKeywords QuranSearch.asciiLower balancedParentheses (okResponse sampleKeywords)
        Page.start).keywordsGridShown = true ∧
      (loadKeywords QuranSearch.asciiLower balancedParentheses (okResponse sampleKeywords)
        Page.start).rows.length = 3 := by
  decide

end Keywords

/-! # The keyword store and the two searches (`keywords.js`) -/

namespace Keywords

open QuranSearch (includes truthy includes_iff truthy_some_iff)

/-! ## `loadKeywords` and the store `allKeywords` -/

/-- What holds of C21: `loadKeywords` leaves `allKeywords` as it was when the
request is rejected, when the status is not OK and when the body does not
parse; when the body parses and fails the validation, `allKeywords` is the
body of that response. -/
theorem loadKeywords_failure_store (toLowerCase : String → String)
    (regExpValid : String → Bool) (page : Page) :
    (∀ reason,
        (loadKeywords toLowerCase regExpValid (Except.error reason) page).allKeywords
          = page.allKeywords) ∧
      (∀ response : Response, response.ok = false →
        (loadKeywords toLowerCase regExpValid (Except.ok response) page).allKeywords
          = page.allKeywords) ∧
      (∀ (response : Response) (reason : String), response.ok = true →
        response.json = Except.error reason →
        (loadKeywords toLowerCase regExpValid (Except.ok response) page).allKeywords
          = page.allKeywords) ∧
      (∀ (response : Response) (data : KeywordsData), response.ok = true →
        response.json = Except.ok data →
        (data.english = none ∨ data.arabic = none ∨ data.urdu = none) →
        (loadKeywords toLowerCase regExpValid (Except.ok response) page).allKeywords = data ∧
          (loadKeywords toLowerCase regExpValid (Except.ok response) page).errorMessageShown
            = true) := by
  refine ⟨?_, ?_, ?_, ?_⟩
  · intro reason
    rfl
  · intro response hok
    simp only [loadKeywords, hok, Bool.not_false, if_true]
    rfl
  · intro response reason hok hjson
    simp only [loadKeywords, hok, hjson, Bool.not_true, Bool.false_eq_true, if_false]
    rfl
  · intro response data hok hjson hmissing
    have hcheck : (data.english.isNone || data.arabic.isNone || data.urdu.isNone) = true := by
      rcases hmissing with h | h | h <;> simp [h]
    simp only [loadKeywords, hok, hjson, hcheck, Bool.not_true, Bool.false_eq_true, if_false,
      if_true]
    exact ⟨rfl, rfl⟩

/-- C21 at the failing input: after a first load of `sampleKeywords`, a second
`loadKeywords` gets a 200 response whose body lacks `urdu`.  The call fails
(the error message is shown), yet `allKeywords` is now the invalid body and no
longer the value loaded before; a search run on that store throws. -/
theorem loadKeywords_invalid_response_overwrites_store :
    loadedKeywordsPage.allKeywords = sampleKeywords ∧
      invalidKeywords.urdu = none ∧
      (loadKeywords QuranSearch.asciiLower balancedParentheses (okResponse invalidKeywords)
        loadedKeywordsPage).errorMessageShown = true ∧
      (loadKeywords QuranSearch.asciiLower balancedParentheses (okResponse invalidKeywords)
        loadedKeywordsPage).allKeywords = invalidKeywords ∧
      (loadKeywords QuranSearch.asciiLower balancedParentheses (okResponse invalidKeywords)
        loadedKeywordsPage).allKeywords ≠ sampleKeywords ∧
      (displayKeywords QuranSearch.asciiLower balancedParentheses
        { loadKeywords QuranSearch.asciiLower balancedParentheses (okResponse invalidKeywords)
            loadedKeywordsPage with searchQuery := "mercy" }).2 = some "TypeError" := by
  decide

/-! ## The search branch of `displayKeywords` against `getFilteredKeywords` -/

theorem includes_empty_text (searchLower : String) (hquery : searchLower ≠ "") :
    includes "" searchLower = false := by
  rw [Bool.eq_false_iff]
  intro h
  have hsub : searchLower.data <:+: [] := (includes_iff "" searchLower).mp h
  exact hquery (String.ext (List.eq_nil_of_infix_nil hsub))

/-- The guard `keywords[i] && ...` and the default `keywords[i] || ''` give the
same answer when the lowercased query is not empty and the empty string
lowercases to itself. -/
theorem guardedMatch_eq_default (toLowerCase : String → String) (searchLower : String)
    (keywords : List String) (i : Nat) (hempty : toLowerCase "" = "")
    (hquery : searchLower ≠ "") :
    guardedMatch toLowerCase searchLower keywords i
      = includes (toLowerCase (keywordOrEmpty keywords i)) searchLower := by
  unfold guardedMatch keywordOrEmpty
  split
  · rw [hempty, includes_empty_text searchLower hquery]
  · rename_i keyword _
    by_cases hkeyword : truthy (some keyword) = true
    · simp [hkeyword]
    · simp only [hkeyword, Bool.false_eq_true, if_false, hempty,
        includes_empty_text searchLower hquery]
      simp [Bool.not_eq_true _ ▸ hkeyword]

theorem filterMap_if_eq_map_filter {α β : Type} (p : α → Bool) (f : α → β) (xs : List α) :
    xs.filterMap (fun x => if p x = true then some (f x) else none) = (xs.filter p).map f := by
  induction xs with
  | nil => rfl
  | cons x rest ih =>
    by_cases hx : p x = true
    · simp [List.filterMap_cons, List.filter_cons, hx, ih]
    · simp [List.filterMap_cons, List.filter_cons, hx, ih]

theorem createKeywordRow_rowData (regExpValid : String → Bool) (searchQuery : String)
    (rowData : RowData) (row : Row)
    (hrow : createKeywordRow regExpValid searchQuery rowData = some row) :
    row.rowData = rowData := by
  unfold createKeywordRow at hrow
  split at hrow
  · exact absurd hrow (by simp)
  · split at hrow
    · exact absurd hrow (by simp)
    · split at hrow
      · exact absurd hrow (by simp)
      · simp only [Option.some.injEq] at hrow
        rw [← hrow]

theorem createKeywordRows_rowData (regExpValid : String → Bool) (searchQuery : String)
    (rowsData : List RowData)
    (hsafe : searchQuery = "" ∨ regExpValid ("(" ++ searchQuery ++ ")") = true) :
    (createKeywordRows regExpValid searchQuery rowsData).1.map (fun row => row.rowData)
      = rowsData := by
  induction rowsData with
  | nil => rfl
  | cons rowData rest ih =>
    obtain ⟨row, hrow⟩ := createKeywordRow_of_safe regExpValid searchQuery rowData hsafe
    have hdata := createKeywordRow_rowData regExpValid searchQuery rowData row hrow
    simp only [createKeywordRows, hrow, List.map_cons, hdata, ih]

/-- With the three arrays present, a search query and a pattern that compiles,
the rows `displayKeywords` leaves on the page are built from `matchingRows`, in
order. -/
theorem displayKeywords_search_rows (toLowerCase : String → String)
    (regExpValid : String → Bool) (page : Page) (english arabic urdu : List String)
    (matching : List RowData)
    (hdata : page.allKeywords
      = { english := some english, arabic := some arabic, urdu := some urdu })
    (hquery : page.searchQuery ≠ "")
    (hvalid : regExpValid ("(" ++ page.searchQuery ++ ")") = true)
    (hmatching : matchingRows toLowerCase page.searchQuery
      { english := some english, arabic := some arabic, urdu := some urdu } = some matching) :
    (displayKeywords toLowerCase regExpValid page).1.rows.map (fun row => row.rowData)
      = matching := by
  obtain ⟨filtered, hfiltered⟩ :=
    getFilteredKeywords_of_arrays toLowerCase page english arabic urdu hdata
  have htruthy : truthy (some page.searchQuery) = true := (truthy_some_iff _).mpr hquery
  have hthrew := createKeywordRows_of_safe regExpValid page.searchQuery matching (Or.inr hvalid)
  have hrows := createKeywordRows_rowData regExpValid page.searchQuery matching (Or.inr hvalid)
  have hvisible : ∀ q : Page, q.allKeywords = page.allKeywords →
      q.currentFilter = page.currentFilter → q.searchQuery = page.searchQuery →
      updateVisibleCount toLowerCase q
        = some { q with
            visibleCount := lengthOrZero filtered.english + lengthOrZero filtered.arabic
              + lengthOrZero filtered.urdu } := by
    intro q h1 h2 h3
    simp only [updateVisibleCount, getFilteredKeywords_congr toLowerCase q page h1 h2 h3,
      hfiltered]
  unfold displayKeywords
  simp only [hfiltered, htruthy, if_true, hdata, hmatching]
  cases hbuilt : createKeywordRows regExpValid page.searchQuery matching with
  | mk rows threw =>
    rw [hbuilt] at hthrew hrows
    simp only at hthrew hrows
    subst hthrew
    simp only [Bool.false_eq_true, if_false]
    rw [hvisible]
    · exact hrows
    · exact hdata.symm
    · rfl
    · rfl

/-- C22: the two searches of the keywords page agree.  With the three arrays
present and a non-empty search query, the rows that the search branch of
`displayKeywords` builds (with the `|| ''` defaults) are the rows of exactly
the indices in `matchingIndices` of `getFilteredKeywords` (with the `&&`
guards), in ascending order of the original index `i`, each labelled `i + 1`;
and when the highlight pattern compiles these are the rows `displayKeywords`
leaves on the page.  Lowercasing is assumed to yield the empty string exactly
for the empty string, as the built-in does. -/
theorem search_branches_agree (toLowerCase : String → String)
    (english arabic urdu : List String) (searchQuery : String)
    (hlower : ∀ s, toLowerCase s = "" ↔ s = "") (hquery : searchQuery ≠ "") :
    ∃ (indices : List Nat) (rows : List RowData),
      matchingIndices toLowerCase searchQuery
          { english := some english, arabic := some arabic, urdu := some urdu } = some indices ∧
        matchingRows toLowerCase searchQuery
          { english := some english, arabic := some arabic, urdu := some urdu } = some rows ∧
        rows = indices.map (searchRowAt english arabic urdu) ∧
        rows.map (fun row => row.index) = indices.map (fun i => i + 1) ∧
        indices.Pairwise (fun a b => a < b) ∧
        ∀ (regExpValid : String → Bool) (page : Page),
          page.allKeywords
              = { english := some english, arabic := some arabic, urdu := some urdu } →
          page.searchQuery = searchQuery →
          regExpValid ("(" ++ searchQuery ++ ")") = true →
          (displayKeywords toLowerCase regExpValid page).1.rows.map (fun row => row.rowData)
            = rows := by
  have hempty : toLowerCase "" = "" := (hlower "").mpr rfl
  have hsearch : toLowerCase searchQuery ≠ "" := fun h => hquery ((hlower searchQuery).mp h)
  obtain ⟨indices, hindices, hsorted, _⟩ :=
    matchingIndices_spec toLowerCase searchQuery english arabic urdu
  have hrows : matchingRows toLowerCase searchQuery
      { english := some english, arabic := some arabic, urdu := some urdu }
        = some (indices.map (searchRowAt english arabic urdu)) := by
    unfold matchingIndices at hindices
    unfold matchingRows
    simp only at hindices ⊢
    split
    · rename_i hzero
      simp only [hzero, if_true, Option.some.injEq] at hindices
      rw [← hindices]
      rfl
    · rename_i hzero
      simp only [hzero, if_false, Option.some.injEq] at hindices
      rw [← hindices]
      congr 1
      rw [← filterMap_if_eq_map_filter]
      apply List.filterMap_congr
      intro i _
      simp only [guardedMatch_eq_default toLowerCase _ _ i hempty hsearch, searchRowAt]
  refine ⟨indices, indices.map (searchRowAt english arabic urdu), hindices, hrows, rfl, ?_,
    hsorted, ?_⟩
  · rw [List.map_map]
    rfl
  · intro regExpValid page hdata hpage hvalid
    subst hpage
    exact displayKeywords_search_rows toLowerCase regExpValid page english arabic urdu _ hdata
      hquery hvalid hrows

/-- C22 on `sampleKeywords` with the query "p": both searches find the
original indices 1 and 2, shown as rows 2 and 3; the Arabic cell of row 3 is
the default `''`. -/
theorem search_branches_agree_witness :
    (∀ s, QuranSearch.asciiLower s = "" ↔ s = "") ∧ "p" ≠ "" ∧
      matchingIndices QuranSearch.asciiLower "p" sampleKeywords = some [1, 2] ∧
      matchingRows QuranSearch.asciiLower "p" sampleKeywords
        = some
            [ { index := 2, english := "Prayer", arabic := "صلاة", urdu := "نماز" },
              { index := 3, english := "makePatience", arabic := "", urdu := "صبر (sabr)" } ] ∧
      ∃ (indices : List Nat) (rows : List RowData),
        matchingIndices QuranSearch.asciiLower "p"
            { english := some ["Mercy", "Prayer", "makePatience"],
              arabic := some ["رحمة", "صلاة"],
              urdu := some ["رحمت", "نماز", "صبر (sabr)"] } = some indices ∧
          matchingRows QuranSearch.asciiLower "p"
            { english := some ["Mercy", "Prayer", "makePatience"],
              arabic := some ["رحمة", "صلاة"],
              urdu := some ["رحمت", "نماز", "صبر (sabr)"] } = some rows ∧
          rows = indices.map
            (searchRowAt ["Mercy", "Prayer", "makePatience"] ["رحمة", "صلاة"]
              ["رحمت", "نماز", "صبر (sabr)"]) ∧
          rows.map (fun row => row.index) = indices.map (fun i => i + 1) ∧
          indices.Pairwise (fun a b => a < b) ∧
          ∀ (regExpValid : String → Bool) (page : Page),
            page.allKeywords
                = { english := some ["Mercy", "Prayer", "makePatience"],
                    arabic := some ["رحمة", "صلاة"],
                    urdu := some ["رحمت", "نماز", "صبر (sabr)"] } →
            page.searchQuery = "p" →
            regExpValid ("(" ++ "p" ++ ")") = true →
            (displayKeywords QuranSearch.asciiLower regExpValid page).1.rows.map
                (fun row => row.rowData)
              = rows :=
  ⟨QuranSearch.asciiLower_eq_empty_iff, by decide, by decide, by decide,
    search_branches_agree QuranSearch.asciiLower _ _ _ "p" QuranSearch.asciiLower_eq_empty_iff
      (by decide)⟩

end Keywords
